import Mathlib

/-!
# Verification of the MANIM customer/insurance record manager

Shallow embedding of the core of the `manim_app` Python sources:
the AES-GCM field-encryption wrappers and masking helpers
(`core/crypto.py`), the validators (`core/validation.py`), the customer
repository's create/soft-delete/restore hash-reconciliation protocol
(`repositories/customer_repository.py`), the service layer's
snapshot/diff auditing (`services/customer_service.py`), the key
bootstrap (`core/config.py`) and the CSV import loop
(`services/csv_import_service.py`).

Conventions of the embedding:
* SQLite rows are records in a list; the `UNIQUE` index on
  `customers.rrn_hash` is modelled by the insert/update operations
  checking for a colliding hash and raising `integrityError`, which is
  what SQLite does.
* Encrypted columns (`rrn_encrypted`, ...) are modelled by the plaintext
  they decrypt to: AES-GCM decryption inverts encryption (proved below
  for the blob layout the code uses), and a fresh random nonce makes the
  stored bytes non-deterministic, so the decrypted content is the
  faithful deterministic view of the column.
* Python exceptions become `Except` errors; an error result means
  the database state is unchanged (every repository method is a single
  auto-committed unit of work, and the raising statements never commit
  a partial write).
* `hashlib.sha256(...).hexdigest()` is an external primitive; it is
  modelled as a parameter `H : String → String` whose outputs are
  hexadecimal digests, of which the code relies only on the fact that
  they never contain `':'` (the tombstone marker separator).
-/

namespace Manim

/-! ## Decimal representation of SQLite integers

`rrn_hash || ':deleted:' || id` converts the integer `id` to its decimal
text; we embed that conversion and prove it injective. -/

/-- Big-endian decimal digit list, with explicit fuel so that the
definition is structurally recursive and evaluates in the kernel. -/
def decDigitsAux : ℕ → ℕ → List ℕ
  | 0, n => [n]
  | fuel + 1, n =>
    if n < 10 then [n] else decDigitsAux fuel (n / 10) ++ [n % 10]

/-- Big-endian decimal digit list of a natural number. -/
def decDigits (n : ℕ) : List ℕ := decDigitsAux n n

/-- Value of a big-endian decimal digit list. -/
def decVal (l : List ℕ) : ℕ := l.foldl (fun a d => 10 * a + d) 0

theorem decVal_append_last (l : List ℕ) (d : ℕ) :
    decVal (l ++ [d]) = 10 * decVal l + d := by
  simp [decVal, List.foldl_append]

theorem decVal_decDigitsAux :
    ∀ (fuel n : ℕ), n ≤ fuel → decVal (decDigitsAux fuel n) = n := by
  intro fuel
  induction fuel with
  | zero =>
    intro n hn
    interval_cases n
    simp [decDigitsAux, decVal]
  | succ fuel ih =>
    intro n hn
    rw [decDigitsAux]
    by_cases h : n < 10
    · simp [h, decVal]
    · rw [if_neg h, decVal_append_last, ih (n / 10) (by omega)]
      omega

theorem decVal_decDigits (n : ℕ) : decVal (decDigits n) = n :=
  decVal_decDigitsAux n n (le_refl n)

theorem decDigits_injective : Function.Injective decDigits := by
  intro a b h
  have := decVal_decDigits a
  rw [h, decVal_decDigits] at this
  omega

theorem decDigitsAux_lt_ten :
    ∀ (fuel n : ℕ), n ≤ fuel → ∀ d ∈ decDigitsAux fuel n, d < 10 := by
  intro fuel
  induction fuel with
  | zero =>
    intro n hn
    interval_cases n
    simp [decDigitsAux]
  | succ fuel ih =>
    intro n hn
    rw [decDigitsAux]
    by_cases h : n < 10
    · simp [h]
    · rw [if_neg h]
      intro d hd
      rcases List.mem_append.1 hd with h1 | h1
      · exact ih (n / 10) (by omega) d h1
      · simp at h1
        omega

theorem decDigits_lt_ten (n : ℕ) : ∀ d ∈ decDigits n, d < 10 :=
  decDigitsAux_lt_ten n n (le_refl n)

/-- Decimal digit to its character, mirroring SQLite's integer-to-text cast. -/
def digitChar (d : ℕ) : Char :=
  ['0', '1', '2', '3', '4', '5', '6', '7', '8', '9'].getD d '0'

/-- Left inverse of `digitChar` on digits. -/
def digitOfChar (c : Char) : ℕ :=
  if c = '1' then 1 else if c = '2' then 2 else if c = '3' then 3
  else if c = '4' then 4 else if c = '5' then 5 else if c = '6' then 6
  else if c = '7' then 7 else if c = '8' then 8 else if c = '9' then 9
  else 0

theorem digitOfChar_digitChar {d : ℕ} (h : d < 10) :
    digitOfChar (digitChar d) = d := by
  interval_cases d <;> decide

/-- Decimal text of a natural number (SQLite's text form of an integer). -/
def natToDec (n : ℕ) : String := String.mk ((decDigits n).map digitChar)

theorem natToDec_injective : Function.Injective natToDec := by
  intro a b h
  apply decDigits_injective
  have hdata : (decDigits a).map digitChar = (decDigits b).map digitChar := by
    simpa [natToDec] using congrArg String.data h
  have ha := decDigits_lt_ten a
  have hb := decDigits_lt_ten b
  have : (decDigits a).map (fun d => digitOfChar (digitChar d)) =
      (decDigits b).map (fun d => digitOfChar (digitChar d)) := by
    simpa [List.map_map, Function.comp] using congrArg (List.map digitOfChar) hdata
  rw [List.map_congr_left (fun d hd => digitOfChar_digitChar (ha d hd)),
    List.map_congr_left (fun d hd => digitOfChar_digitChar (hb d hd))] at this
  simpa using this

theorem digitChar_ne_colon {d : ℕ} (h : d < 10) : digitChar d ≠ ':' := by
  interval_cases d <;> decide

/-! ## Colon-free strings and the tombstone scheme -/

/-- A string that contains no `':'` character.  SHA-256 hex digests are
colon-free, which is what keeps canonical hashes and tombstones apart. -/
def ColonFree (s : String) : Prop := ':' ∉ s.data

/-- A model of `hashlib.sha256(·.encode("utf-8")).hexdigest()`: all the
code relies on is that the digest never contains `':'`. -/
def HashFn (H : String → String) : Prop := ∀ s, ColonFree (H s)

/-- The tombstone hash written by
`SET rrn_hash = rrn_hash || ':deleted:' || id`. -/
def tombstone (h : String) (rowId : ℕ) : String :=
  h ++ ":deleted:" ++ natToDec rowId

theorem cons_append_colon_inj {l1 l2 r1 r2 : List Char}
    (h1 : ':' ∉ l1) (h2 : ':' ∉ l2)
    (h : l1 ++ ':' :: r1 = l2 ++ ':' :: r2) : l1 = l2 ∧ r1 = r2 := by
  induction l1 generalizing l2 with
  | nil =>
    cases l2 with
    | nil => simpa using h
    | cons b bs =>
      simp only [List.nil_append, List.cons_append, List.cons.injEq] at h
      exact absurd (by simp [← h.1]) h2
  | cons a as ih =>
    cases l2 with
    | nil =>
      simp only [List.nil_append, List.cons_append, List.cons.injEq] at h
      exact absurd (by simp [h.1]) h1
    | cons b bs =>
      simp only [List.cons_append, List.cons.injEq] at h
      obtain ⟨hab, hrest⟩ := h
      have := ih (by simp at h1; exact h1.2) (by simp at h2; exact h2.2) hrest
      exact ⟨by simp [hab, this.1], this.2⟩

theorem tombstone_data (h : String) (rowId : ℕ) :
    (tombstone h rowId).data =
      h.data ++ ':' :: ("deleted:".data ++ (natToDec rowId).data) := by
  simp [tombstone, String.data_append]

theorem colon_mem_tombstone (h : String) (rowId : ℕ) :
    ':' ∈ (tombstone h rowId).data := by
  rw [tombstone_data]
  simp

/-- A tombstone is never equal to a colon-free (canonical) hash. -/
theorem tombstone_ne_colonFree {s h : String} {rowId : ℕ}
    (hs : ColonFree s) : tombstone h rowId ≠ s := by
  intro he
  exact hs (he ▸ colon_mem_tombstone h rowId)

/-- Tombstones of colon-free hashes are built injectively from the hash
and the row id. -/
theorem tombstone_inj {h1 h2 : String} {id1 id2 : ℕ}
    (hc1 : ColonFree h1) (hc2 : ColonFree h2)
    (h : tombstone h1 id1 = tombstone h2 id2) : h1 = h2 ∧ id1 = id2 := by
  have hdata := congrArg String.data h
  rw [tombstone_data, tombstone_data] at hdata
  obtain ⟨hh, hr⟩ := cons_append_colon_inj hc1 hc2 hdata
  refine ⟨String.ext hh, ?_⟩
  have := List.append_cancel_left hr
  exact natToDec_injective (String.ext this)

/-! ## Crypto service (`core/crypto.py`)

AES-256-GCM itself is an external primitive (`cryptography`'s `AESGCM`);
it is modelled as an abstract authenticated scheme whose decryption
inverts encryption for well-sized keys and nonces.  The scheme's
encoding side includes `plain_text.encode("utf-8")` and its decoding
side includes `plain.decode("utf-8")`, so plaintexts are `String`s and
wire data are byte lists. -/

def NONCE_SIZE : ℕ := 12
def KEY_SIZE : ℕ := 32

/-- Abstract AES-256-GCM: `enc key nonce plaintext` is the
ciphertext-plus-tag for the UTF-8 encoded plaintext, `dec` inverts it
and fails (`none`) on tampered or truncated input. -/
structure AEADScheme where
  enc : List ℕ → List ℕ → String → List ℕ
  dec : List ℕ → List ℕ → List ℕ → Option String
  dec_enc : ∀ key nonce s, key.length = KEY_SIZE → nonce.length = NONCE_SIZE →
    dec key nonce (enc key nonce s) = some s

/-- `CryptoService.encrypt_text`: fresh 12-byte `nonce` (from
`os.urandom`, passed as a parameter here), AES-GCM with no associated
data, returns `nonce + cipher_text`. -/
def encrypt_text (A : AEADScheme) (key nonce : List ℕ) (plainText : String) : List ℕ :=
  nonce ++ A.enc key nonce plainText

/-- `CryptoService.decrypt_text`: splits the first `NONCE_SIZE` bytes as
the nonce and the rest as ciphertext-plus-tag. -/
def decrypt_text (A : AEADScheme) (key : List ℕ) (encrypted : List ℕ) : Option String :=
  A.dec key (encrypted.take NONCE_SIZE) (encrypted.drop NONCE_SIZE)

/-- Python `s[i]` for a non-negative index; `none` models the
`IndexError` raised when `i` is out of range. -/
def pyIndex (l : List Char) (i : ℕ) : Option Char := l.get? i

/-- `rrn.replace("-", "")`. -/
def stripDashes (s : String) : String := String.mk (s.data.filter (fun c => c ≠ '-'))

/-- `mask_rrn`: `f"{cleaned[:6]}-{cleaned[6]}******"` where `cleaned`
drops the dashes.  `cleaned[:6]` never fails, `cleaned[6]` raises
`IndexError` when the cleaned form has fewer than 7 characters. -/
def mask_rrn (rrn : String) : Option String :=
  let cleaned := stripDashes rrn
  (pyIndex cleaned.data 6).map fun c =>
    String.mk (cleaned.data.take 6) ++ "-" ++ String.mk [c] ++ "******"

/-- `mask_account`: all asterisks when the length is at most 4,
otherwise asterisks for all but the last 4 characters. -/
def mask_account (account : String) : String :=
  if account.length ≤ 4 then String.mk (List.replicate account.length '*')
  else String.mk (List.replicate (account.length - 4) '*' ++
    account.data.drop (account.length - 4))

/-! ## Error taxonomy

Every error the embedded operations raise.  The Python classes:
`validationError`/`duplicateResidentId`/`duplicateDetected`/
`activeDependencyExists`/`restoreConflict`/`notFound` are `ValueError`s,
`keyError` is `KeyError`, `integrityError` is `sqlite3.IntegrityError`,
`indexError` is `IndexError` and `attributeError` is the
`AttributeError` a string method raises on a `None` value. -/

inductive RepoError where
  | validationError (msg : String)
  | keyError (key : String)
  | duplicateResidentId
  | duplicateDetected
  | activeDependencyExists
  | restoreConflict
  | notFound (msg : String)
  | integrityError
  | indexError
  | attributeError
  deriving DecidableEq

instance {ε α : Type} [DecidableEq ε] [DecidableEq α] : DecidableEq (Except ε α) := by
  intro a b
  cases a <;> cases b
  case error.error e1 e2 =>
    exact decidable_of_iff (e1 = e2) (by simp)
  case ok.ok a1 a2 =>
    exact decidable_of_iff (a1 = a2) (by simp)
  all_goals exact isFalse (by simp)

/-- `str(error)` for the errors above, as the CSV importer formats it. -/
def errMsg : RepoError → String
  | .validationError m => m
  | .keyError k => "'" ++ k ++ "'"
  | .duplicateResidentId => "이미 등록된 주민번호입니다."
  | .duplicateDetected => "주민번호 중복이 감지되었습니다."
  | .activeDependencyExists => "활성 보험이 있는 고객은 삭제할 수 없습니다."
  | .restoreConflict => "동일 주민번호의 활성 고객이 있어 복구할 수 없습니다."
  | .notFound m => m
  | .integrityError => "UNIQUE constraint failed: customers.rrn_hash"
  | .indexError => "string index out of range"
  | .attributeError => "'NoneType' object has no attribute 'strip'"

/-! ## Validators (`core/validation.py`) -/

/-- Python `str.strip()`: drop whitespace from both ends. -/
def pyStrip (s : String) : String :=
  String.mk (((s.data.dropWhile Char.isWhitespace).reverse.dropWhile
    Char.isWhitespace).reverse)

def isDigitChar (c : Char) : Bool := '0' ≤ c && c ≤ '9'

def digitVal (c : Char) : ℕ := c.toNat - 48

def rrnWeights : List ℕ := [2, 3, 4, 5, 6, 7, 8, 9, 2, 3, 4, 5]

/-- `validate_rrn`: strip dashes, require 13 digits, check the weighted
checksum, return the normalized digit string. -/
def validate_rrn (rrn : String) : Except RepoError String :=
  let digits := stripDashes rrn
  if !(digits.data.all isDigitChar) || digits.data.length ≠ 13 then
    .error (.validationError "주민번호는 13자리 숫자여야 합니다.")
  else
    let ds := digits.data.map digitVal
    let total := (List.zipWith (· * ·) (ds.take 12) rrnWeights).sum
    let check := (11 - total % 11) % 10
    if check ≠ ds.getD 12 0 then
      .error (.validationError "주민번호 체크섬이 유효하지 않습니다.")
    else .ok digits

/-- `PHONE_PATTERN`: `^010-\d{4}-\d{4}$`. -/
def phoneMatches (s : String) : Bool :=
  match s.data with
  | '0' :: '1' :: '0' :: '-' :: a :: b :: c :: d :: '-' :: e :: f :: g :: h :: [] =>
    isDigitChar a && isDigitChar b && isDigitChar c && isDigitChar d &&
    isDigitChar e && isDigitChar f && isDigitChar g && isDigitChar h
  | _ => false

def validate_phone (phone : String) : Except RepoError String :=
  if phoneMatches phone then .ok phone
  else .error (.validationError "연락처 형식은 010-1234-5678 이어야 합니다.")

/-- `validate_required_text` (`value.strip()` is modelled by
`String.trim`). -/
def validate_required_text (value fieldName : String) : Except RepoError String :=
  let normalized := pyStrip value
  if normalized = "" then
    .error (.validationError (fieldName ++ "은(는) 필수 입력입니다."))
  else .ok normalized

/-- `validate_optional_number`: empty is allowed, otherwise keep only
digit characters, require at least one digit and a length in range. -/
def validate_optional_number (value fieldName : String) (minLength maxLength : ℕ) :
    Except RepoError String :=
  let normalized := pyStrip value
  if normalized = "" then .ok ""
  else
    let digits := normalized.data.filter (fun c => isDigitChar c)
    if digits.isEmpty then
      .error (.validationError (fieldName ++ " 형식이 올바르지 않습니다."))
    else if digits.length < minLength || maxLength < digits.length then
      .error (.validationError (fieldName ++ " 길이는 " ++ natToDec minLength ++ "~" ++
        natToDec maxLength ++ "자리여야 합니다."))
    else .ok (String.mk digits)

/-! ## Customer payload and service validation
(`models/customer.py`, `CustomerService._validate`) -/

structure CustomerCreate where
  name : String
  rrn : String
  phone : String
  address : String
  job : String
  payment_card : String
  payment_account : String
  payout_account : String
  medical_history : String
  note : String
  deriving DecidableEq

/-- `CustomerService._validate`, field by field in source order. -/
def validateCustomer (p : CustomerCreate) : Except RepoError CustomerCreate := do
  let name ← validate_required_text p.name "이름"
  let rrn ← validate_rrn p.rrn
  let phone ← validate_phone (pyStrip p.phone)
  let address ← validate_required_text p.address "주소"
  let pc ← validate_optional_number p.payment_card "카드번호" 12 19
  let pa ← validate_optional_number p.payment_account "결제 계좌" 8 20
  let po ← validate_optional_number p.payout_account "보험금 수령 계좌" 8 20
  .ok { name := name, rrn := rrn, phone := phone, address := address,
        job := pyStrip p.job, payment_card := pc, payment_account := pa,
        payout_account := po, medical_history := pyStrip p.medical_history,
        note := pyStrip p.note }

/-! ## Database state (`repositories/schema.py`)

A customer row carries the columns the claims touch; encrypted columns
are represented by their decrypted content (see the header comment).
`deleted = true` models `deleted_at IS NOT NULL`. -/

structure CustomerRow where
  id : ℕ
  name : String
  rrn : String
  rrnHash : String
  phone : String
  address : String
  job : String
  payment_card : String
  payment_account : String
  payout_account : String
  medical_history : String
  note : String
  deleted : Bool
  deriving DecidableEq

structure InsuranceRow where
  id : ℕ
  customerId : ℕ
  deleted : Bool
  deriving DecidableEq

structure DB where
  customers : List CustomerRow
  insurances : List InsuranceRow
  nextCustomerId : ℕ
  nextInsuranceId : ℕ
  deriving DecidableEq

def emptyDB : DB := ⟨[], [], 1, 1⟩

/-! ## Customer repository (`repositories/customer_repository.py`) -/

/-- The row built by the `INSERT INTO customers` statement of
`create_customer`, with `rrn_hash = self._hash_rrn(payload.rrn)`. -/
def rowOfPayload (H : String → String) (rowId : ℕ) (q : CustomerCreate) : CustomerRow :=
  { id := rowId, name := q.name, rrn := q.rrn, rrnHash := H q.rrn,
    phone := q.phone, address := q.address, job := q.job,
    payment_card := q.payment_card, payment_account := q.payment_account,
    payout_account := q.payout_account, medical_history := q.medical_history,
    note := q.note, deleted := false }

/-- One `INSERT INTO customers` execution: the `UNIQUE` index on
`rrn_hash` rejects a colliding row with an `IntegrityError`; otherwise
the row is appended with the next `AUTOINCREMENT` id, which is returned
as `lastrowid`. -/
def insertCustomer (H : String → String) (db : DB) (q : CustomerCreate) :
    Except RepoError (DB × ℕ) :=
  if db.customers.any (fun r => r.rrnHash = H q.rrn) then .error .integrityError
  else .ok ({ db with
      customers := db.customers ++ [rowOfPayload H db.nextCustomerId q],
      nextCustomerId := db.nextCustomerId + 1 }, db.nextCustomerId)

/-- `CustomerRepository.create_customer`: insert, and on a
`customers.rrn_hash` unique violation run the reconciliation protocol:
an active holder means `DuplicateResidentId`; a soft-deleted holder is
re-hashed to its tombstone value
(`SET rrn_hash = rrn_hash || ':deleted:' || id WHERE id = ?`, itself
subject to the unique index) and the insert is retried once, uncaught. -/
def create_customer (H : String → String) (db : DB) (q : CustomerCreate) :
    Except RepoError (DB × ℕ) :=
  match insertCustomer H db q with
  | .ok res => .ok res
  | .error _ =>
    match db.customers.find? (fun r => r.rrnHash = H q.rrn && !r.deleted) with
    | some _ => .error .duplicateResidentId
    | none =>
      match db.customers.find? (fun r => r.rrnHash = H q.rrn && r.deleted) with
      | some d =>
        let t := tombstone d.rrnHash d.id
        if db.customers.any (fun r => r.id ≠ d.id && r.rrnHash = t) then
          .error .integrityError
        else
          let mutated := db.customers.map
            (fun r => if r.id = d.id then { r with rrnHash := t } else r)
          insertCustomer H { db with customers := mutated } q
      | none => .error .duplicateDetected

/-- `CustomerRepository.get_customer`: single active row by id. -/
def get_customer (db : DB) (cid : ℕ) : Option CustomerRow :=
  db.customers.find? (fun r => r.id = cid && !r.deleted)

/-- `CustomerRepository.update_customer`: re-encrypt and re-hash all
fields of the active row; a `customers.rrn_hash` unique violation is
reported as `DuplicateResidentId`; returns the affected row count. -/
def update_customer (H : String → String) (db : DB) (cid : ℕ) (q : CustomerCreate) :
    Except RepoError (DB × ℕ) :=
  match db.customers.find? (fun r => r.id = cid && !r.deleted) with
  | none => .ok (db, 0)
  | some _ =>
    if db.customers.any (fun s => s.id ≠ cid && s.rrnHash = H q.rrn) then
      .error .duplicateResidentId
    else
      let updated := db.customers.map (fun s =>
        if s.id = cid && !s.deleted then
          { s with
            name := q.name,
            rrn := q.rrn,
            rrnHash := H q.rrn,
            phone := q.phone,
            address := q.address,
            job := q.job,
            payment_card := q.payment_card,
            payment_account := q.payment_account,
            payout_account := q.payout_account,
            medical_history := q.medical_history,
            note := q.note }
        else s)
      .ok ({ db with customers := updated }, 1)

/-- `CustomerRepository.soft_delete_customer`: refuse when the customer
has an active insurance; otherwise one UPDATE sets `deleted_at` and the
tombstone hash together (the tombstone write is itself subject to the
unique index). -/
def soft_delete_customer (db : DB) (cid : ℕ) : Except RepoError (DB × ℕ) :=
  if db.insurances.any (fun i => i.customerId = cid && !i.deleted) then
    .error .activeDependencyExists
  else
    match db.customers.find? (fun r => r.id = cid && !r.deleted) with
    | none => .ok (db, 0)
    | some r =>
      let t := tombstone r.rrnHash r.id
      if db.customers.any (fun s => s.id ≠ cid && s.rrnHash = t) then
        .error .integrityError
      else
        let updated := db.customers.map (fun s =>
          if s.id = cid && !s.deleted then
            { s with deleted := true, rrnHash := t }
          else s)
        .ok ({ db with customers := updated }, 1)

/-- `CustomerRepository.restore_customer`: missing or active rows affect
zero rows; otherwise decrypt the stored resident-id, recompute the
canonical hash, fail with `RestoreConflict` when another active row
holds it, else clear `deleted_at` and reset the hash (subject to the
unique index). -/
def restore_customer (H : String → String) (db : DB) (cid : ℕ) :
    Except RepoError (DB × ℕ) :=
  match db.customers.find? (fun r => r.id = cid) with
  | none => .ok (db, 0)
  | some r =>
    if !r.deleted then .ok (db, 0)
    else
      match db.customers.find? (fun s => s.rrnHash = H r.rrn && !s.deleted && s.id ≠ cid) with
      | some _ => .error .restoreConflict
      | none =>
        if db.customers.any (fun s => s.id ≠ cid && s.rrnHash = H r.rrn) then
          .error .integrityError
        else
          let updated := db.customers.map (fun s =>
            if s.id = cid && s.deleted then
              { s with deleted := false, rrnHash := H r.rrn }
            else s)
          .ok ({ db with customers := updated }, 1)

/-- `CustomerRepository.hard_delete_customer`: delete the customer's
insurances, then the customer row, returning the customer rows
removed. -/
def hard_delete_customer (db : DB) (cid : ℕ) : Except RepoError (DB × ℕ) :=
  .ok ({ db with
      insurances := db.insurances.filter (fun i => i.customerId ≠ cid),
      customers := db.customers.filter (fun r => r.id ≠ cid) },
    (db.customers.filter (fun r => r.id = cid)).length)

/-! ## Customer service (`services/customer_service.py`)

The audit-log insert itself (one `INSERT INTO audit_logs` per call) is
not part of any claim below except through the update diff, which is
modelled as the structured value the service JSON-encodes into the
`detail` column. -/

/-- `CustomerService.create_customer` = validate then repository create.
(The masked after-snapshot it logs cannot fail: a validated resident-id
has 13 digits.) -/
def service_create_customer (H : String → String) (db : DB) (p : CustomerCreate) :
    Except RepoError (DB × ℕ) := do
  let q ← validateCustomer p
  create_customer H db q

/-- `CustomerService.restore_customer`: zero affected rows is reported
as a not-found `ValueError`. -/
def service_restore_customer (H : String → String) (db : DB) (cid : ℕ) :
    Except RepoError DB := do
  let (db1, n) ← restore_customer H db cid
  if n = 0 then .error (.notFound "복구할 고객 정보를 찾을 수 없습니다.")
  else .ok db1

/-! ## Masked snapshots and audit diffs
(`CustomerService._snapshot`, `CustomerService._diff`) -/

/-- The dict `_snapshot` builds for an active row, in source order;
`none` models the `IndexError` `mask_rrn` raises on a short
resident-id. -/
def snapshotPairs (r : CustomerRow) : Option (List (String × String)) :=
  (mask_rrn r.rrn).map fun maskedRrn =>
    [("name", r.name), ("rrn", maskedRrn), ("phone", r.phone),
     ("address", r.address), ("job", r.job),
     ("payment_card", mask_account r.payment_card),
     ("payment_account", mask_account r.payment_account),
     ("payout_account", mask_account r.payout_account),
     ("medical_history", r.medical_history), ("note", r.note)]

/-- `CustomerService._snapshot`: `{}` for a missing/inactive id. -/
def snapshotE (db : DB) (cid : ℕ) : Except RepoError (List (String × String)) :=
  match get_customer db cid with
  | none => .ok []
  | some r =>
    match snapshotPairs r with
    | none => .error .indexError
    | some l => .ok l

/-- `d.get(key, "")` on a dict modelled as an association list. -/
def lookupD (l : List (String × String)) (k : String) : String :=
  ((l.find? (fun p => p.1 = k)).map Prod.snd).getD ""

/-- Python string `<` (code-point lexicographic). -/
def charListLt : List Char → List Char → Bool
  | [], [] => false
  | [], _ :: _ => true
  | _ :: _, [] => false
  | a :: as, b :: bs =>
    if a.toNat < b.toNat then true
    else if b.toNat < a.toNat then false
    else charListLt as bs

def strLtB (a b : String) : Bool := charListLt a.data b.data

/-- Insert into a sorted duplicate-free list of keys. -/
def insertSortedKey (s : String) : List String → List String
  | [] => [s]
  | t :: ts =>
    if s = t then t :: ts
    else if strLtB s t then s :: t :: ts
    else t :: insertSortedKey s ts

/-- `sorted(set(before) | set(after))`. -/
def sortedKeyUnion (before after : List (String × String)) : List String :=
  (before.map Prod.fst ++ after.map Prod.fst).foldr insertSortedKey []

/-- `CustomerService._diff`: one `(key, before, after)` entry per key
whose value changed. -/
def diffDict (before after : List (String × String)) :
    List (String × String × String) :=
  (sortedKeyUnion before after).filterMap fun k =>
    let old := lookupD before k
    let new := lookupD after k
    if old = new then none else some (k, old, new)

/-- `CustomerService.update_customer`: before-snapshot, validate,
repository update (zero rows ⇒ not-found `ValueError`), after-snapshot,
then the audit detail is the diff of the two snapshots. -/
def service_update_customer (H : String → String) (db : DB) (cid : ℕ)
    (p : CustomerCreate) :
    Except RepoError (DB × List (String × String × String)) := do
  let before ← snapshotE db cid
  let q ← validateCustomer p
  let (db1, n) ← update_customer H db cid q
  if n = 0 then .error (.notFound "수정할 고객 정보를 찾을 수 없습니다.")
  else do
    let after ← snapshotE db1 cid
    .ok (db1, diffDict before after)

/-! ## Insurance repository surface (`repositories/insurance_repository.py`)

`InsuranceService.hard_delete_insurance` dispatches
`self._insurance_repo.hard_delete_insurance(insurance_id)` by attribute
name; Python raises `AttributeError` when the repository class defines
no such attribute, before any row is read. -/

/-- Every method `InsuranceRepository` defines. -/
def insuranceRepositoryMethods : List String :=
  ["create_insurance", "next_insurance_id", "get_insurance",
   "list_insurances", "search_insurances", "update_insurance",
   "soft_delete_insurance"]

/-- The attribute name `InsuranceService.hard_delete_insurance` looks up
on the repository. -/
def serviceHardDeleteTarget : String := "hard_delete_insurance"

/-! ## Key bootstrap (`core/config.py`) -/

/-- The environment as `_bootstrap_default_keys_if_needed` observes it:
the two key variables after the local env files were loaded, whether any
candidate encrypted-database file exists, and whether the runtime key
file exists. -/
structure KeyEnv where
  dbKey : Option String
  encryptionKey : Option String
  dbFileExists : Bool
  runtimeEnvExists : Bool
  deriving DecidableEq

/-- Python truthiness of `os.getenv(...)`: unset and empty are falsy. -/
def pyTruthy : Option String → Bool
  | none => false
  | some s => !(s == "")

/-- `value or fresh`. -/
def pyOrElse (v : Option String) (fresh : String) : String :=
  match v with
  | some s => if s == "" then fresh else s
  | none => fresh

/-- The observable outcome of a successful bootstrap: the two keys now
in the process environment and whether `config/runtime.env` was
(re)written. -/
structure BootstrapOutcome where
  dbKey : String
  encryptionKey : String
  wroteRuntimeEnv : Bool
  deriving DecidableEq

/-- `_bootstrap_default_keys_if_needed`; the two freshly generated
random keys (`secrets.token_urlsafe(48)` and
`CryptoService.generate_base64_key()`) enter as parameters. -/
def bootstrap_default_keys (e : KeyEnv) (freshDbKey freshEncryptionKey : String) :
    Except String BootstrapOutcome :=
  if pyTruthy e.dbKey && pyTruthy e.encryptionKey then
    .ok ⟨e.dbKey.getD "", e.encryptionKey.getD "", false⟩
  else if e.dbFileExists && !e.runtimeEnvExists then
    .error ("Runtime key file is missing while database file exists. " ++
      "Restore key file or set MANIM_DB_KEY/MANIM_ENCRYPTION_KEY.")
  else
    .ok ⟨pyOrElse e.dbKey freshDbKey, pyOrElse e.encryptionKey freshEncryptionKey, true⟩

/-! ## CSV import (`services/csv_import_service.py`) -/

def CUSTOMER_CSV_HEADERS : List String :=
  ["이름", "주민번호", "연락처", "주소", "직업",
   "카드번호", "결제계좌", "보험금수령계좌", "병력", "비고"]

/-- A `csv.DictReader` row: one cell per fieldname, where `none` is the
`None` the reader substitutes for the missing trailing cells of a data
row shorter than the header. -/
abbrev CsvRow : Type := List (String × Option String)

/-- `row[key]`: `KeyError` when the column is absent; a present column
may hold `None`. -/
def rowGet (row : CsvRow) (k : String) : Except RepoError (Option String) :=
  match List.find? (fun p => p.1 = k) row with
  | some p => .ok p.2
  | none => .error (.keyError k)

/-- A payload field taken from a `DictReader` cell: a `None` cell
raises `AttributeError` at its first string-method call
(`.strip()`/`.replace()`) inside `CustomerService._validate`, which the
row loop's `except (ValueError, KeyError, TypeError)` does not catch. -/
def cellValue : Option String → Except RepoError String
  | some s => .ok s
  | none => .error .attributeError

/-- The `CustomerCreate(...)` construction of `import_customers` (cell
lookups in source order) followed by the field accesses of
`CustomerService._validate` (validator order), where a `None` cell
blows up with `AttributeError`.  That error is hoisted here, in front
of the string-typed validation, which is observationally equivalent:
the loop sees the same uncatchable error and the store is unchanged. -/
def payloadOfRow (row : CsvRow) : Except RepoError CustomerCreate := do
  let name ← rowGet row "이름"
  let rrn ← rowGet row "주민번호"
  let phone ← rowGet row "연락처"
  let address ← rowGet row "주소"
  let job ← rowGet row "직업"
  let payment_card ← rowGet row "카드번호"
  let payment_account ← rowGet row "결제계좌"
  let payout_account ← rowGet row "보험금수령계좌"
  let medical_history ← rowGet row "병력"
  let note ← rowGet row "비고"
  let nameS ← cellValue name
  let rrnS ← cellValue rrn
  let phoneS ← cellValue phone
  let addressS ← cellValue address
  let jobS ← cellValue job
  let pcS ← cellValue payment_card
  let paS ← cellValue payment_account
  let poS ← cellValue payout_account
  let mhS ← cellValue medical_history
  let noteS ← cellValue note
  .ok ⟨nameS, rrnS, phoneS, addressS, jobS, pcS, paS, poS, mhS, noteS⟩

/-- Processing of one data row: build the payload, then
`customer_service.create_customer`. -/
def stepCustomer (H : String → String) (db : DB) (row : CsvRow) :
    Except RepoError DB := do
  let p ← payloadOfRow row
  let (db1, _) ← service_create_customer H db p
  .ok db1

/-- Which errors `except (ValueError, KeyError, TypeError)` catches:
all the embedded errors are `ValueError`s or `KeyError`s except
`sqlite3.IntegrityError`, `IndexError` and `AttributeError`. -/
def catchable : RepoError → Bool
  | .integrityError => false
  | .indexError => false
  | .attributeError => false
  | _ => true

structure CsvImportResult where
  created_count : ℕ
  failed_count : ℕ
  error_messages : List String
  deriving DecidableEq

/-- The `for row_index, row in enumerate(reader, start=2)` loop:
failures are counted, and while fewer than 10 messages are retained the
failure is recorded as `f"{row_index}행: {error}"`; an uncatchable
exception aborts the import. -/
def importLoop (H : String → String) :
    DB → ℕ → ℕ → ℕ → List String → List CsvRow →
    Except RepoError (DB × CsvImportResult)
  | db, _, created, failed, errors, [] => .ok (db, ⟨created, failed, errors⟩)
  | db, idx, created, failed, errors, row :: rest =>
    match stepCustomer H db row with
    | .ok db1 => importLoop H db1 (idx + 1) (created + 1) failed errors rest
    | .error e =>
      if catchable e then
        importLoop H db (idx + 1) created (failed + 1)
          (if errors.length < 10 then
            errors ++ [natToDec idx ++ "행: " ++ errMsg e]
          else errors) rest
      else .error e

/-- `CsvImportService._validate_headers`. -/
def validate_headers (fieldnames : Option (List String)) (required : List String) :
    Except RepoError Unit :=
  match fieldnames with
  | none => .error (.validationError "CSV 헤더가 없습니다.")
  | some names =>
    let missing := required.filter (fun h => !names.contains h)
    if missing.isEmpty then .ok ()
    else .error (.validationError ("CSV 헤더 누락: " ++ String.intercalate ", " missing))

/-- `CsvImportService.import_customers` over a parsed CSV file. -/
def import_customers (H : String → String) (db : DB)
    (fieldnames : Option (List String)) (rows : List CsvRow) :
    Except RepoError (DB × CsvImportResult) := do
  let _ ← validate_headers fieldnames CUSTOMER_CSV_HEADERS
  importLoop H db 2 0 0 [] rows

/-! ## The uniqueness invariant and reachable states -/

/-- The invariant every state reachable through the repository
operations satisfies: ids are pairwise distinct and below the
autoincrement counter, hashes are pairwise distinct (the `UNIQUE`
index), active rows carry the canonical hash of their resident-id and
soft-deleted rows carry their own tombstone. -/
def Inv (H : String → String) (db : DB) : Prop :=
  db.customers.Pairwise (fun a b => a.id ≠ b.id ∧ a.rrnHash ≠ b.rrnHash) ∧
  (∀ r ∈ db.customers, r.id < db.nextCustomerId) ∧
  (∀ r ∈ db.customers, r.rrnHash =
    if r.deleted then tombstone (H r.rrn) r.id else H r.rrn)

/-- What the `UNIQUE` index alone guarantees for any database the
schema accepts, reachable or legacy: distinct ids and hashes, and every
hash either canonical or the row's own tombstone.  Unlike `Inv` this
allows a soft-deleted row to still hold its canonical hash, which is
the state `create_customer`'s reconciliation branch repairs. -/
def HashWF (H : String → String) (db : DB) : Prop :=
  db.customers.Pairwise (fun a b => a.id ≠ b.id ∧ a.rrnHash ≠ b.rrnHash) ∧
  (∀ r ∈ db.customers, r.rrnHash = H r.rrn ∨
    r.rrnHash = tombstone (H r.rrn) r.id)

instance (H : String → String) (db : DB) : Decidable (Inv H db) := by
  unfold Inv
  infer_instance

instance (H : String → String) (db : DB) : Decidable (HashWF H db) := by
  unfold HashWF
  infer_instance

theorem Inv.hashWF {H : String → String} {db : DB} (h : Inv H db) : HashWF H db := by
  refine ⟨h.1, fun r hr => ?_⟩
  have := h.2.2 r hr
  by_cases hd : r.deleted = true
  · right
    rw [this, if_pos hd]
  · left
    rw [this, if_neg hd]

theorem rowRel_symm : Symmetric (fun a b : CustomerRow =>
    a.id ≠ b.id ∧ a.rrnHash ≠ b.rrnHash) := by
  intro a b h
  exact ⟨h.1.symm, h.2.symm⟩

/-- Two list members with the same hash coincide, given the pairwise
distinctness the unique index provides. -/
theorem eq_of_same_hash {l : List CustomerRow}
    (hp : l.Pairwise (fun a b => a.id ≠ b.id ∧ a.rrnHash ≠ b.rrnHash))
    {r1 r2 : CustomerRow} (h1 : r1 ∈ l) (h2 : r2 ∈ l)
    (hh : r1.rrnHash = r2.rrnHash) : r1 = r2 := by
  by_contra hne
  exact (List.Pairwise.forall rowRel_symm hp h1 h2 hne).2 hh

/-- Two list members with the same id coincide. -/
theorem eq_of_same_id {l : List CustomerRow}
    (hp : l.Pairwise (fun a b => a.id ≠ b.id ∧ a.rrnHash ≠ b.rrnHash))
    {r1 r2 : CustomerRow} (h1 : r1 ∈ l) (h2 : r2 ∈ l)
    (hh : r1.id = r2.id) : r1 = r2 := by
  by_contra hne
  exact (List.Pairwise.forall rowRel_symm hp h1 h2 hne).1 hh

/-- Modifying the rows selected by `cond` (all of id `cid`) into rows of
hash `v`, fresh among the rows of other ids, keeps ids and hashes
pairwise distinct. -/
theorem pairwise_modify_row {l : List CustomerRow} {cid : ℕ} {v : String}
    (cond : CustomerRow → Bool) (g : CustomerRow → CustomerRow)
    (hcid : ∀ s, cond s = true → s.id = cid)
    (hgid : ∀ s, (g s).id = s.id)
    (hgh : ∀ s, (g s).rrnHash = v)
    (hfresh : ∀ s ∈ l, s.id ≠ cid → s.rrnHash ≠ v)
    (hp : l.Pairwise fun a b => a.id ≠ b.id ∧ a.rrnHash ≠ b.rrnHash) :
    (l.map fun s => if cond s then g s else s).Pairwise
      fun a b => a.id ≠ b.id ∧ a.rrnHash ≠ b.rrnHash := by
  rw [List.pairwise_map]
  refine hp.imp_of_mem ?_
  intro a b ha hb hab
  have Fid : ∀ s, (if cond s then g s else s).id = s.id := by
    intro s
    by_cases hc : cond s = true
    · rw [if_pos hc, hgid]
    · rw [if_neg hc]
  refine ⟨by rw [Fid, Fid]; exact hab.1, ?_⟩
  by_cases hca : cond a = true <;> by_cases hcb : cond b = true
  · exact absurd ((hcid a hca).trans (hcid b hcb).symm) hab.1
  · rw [if_pos hca, if_neg hcb, hgh]
    intro hv
    exact hfresh b hb (by rw [← hcid a hca]; exact fun h => hab.1 h.symm) hv.symm
  · rw [if_neg hca, if_pos hcb, hgh]
    intro hv
    exact hfresh a ha (by rw [← hcid b hcb]; exact hab.1) hv
  · rw [if_neg hca, if_neg hcb]
    exact hab.2

theorem any_eq_false_of {α : Type} {l : List α} {p : α → Bool}
    (h : ∀ x ∈ l, ¬ p x = true) : l.any p = false := by
  rw [← Bool.not_eq_true, List.any_eq_true]
  rintro ⟨x, hx, hpx⟩
  exact h x hx hpx

theorem forall_of_any_eq_false {α : Type} {l : List α} {p : α → Bool}
    (h : l.any p = false) : ∀ x ∈ l, ¬ p x = true := by
  intro x hx hpx
  rw [← Bool.not_eq_true, List.any_eq_true] at h
  exact h ⟨x, hx, hpx⟩

/-- A fresh hash means the insert succeeds, appending the new row and
returning the autoincrement id. -/
theorem insertCustomer_fresh {H : String → String} {db : DB} {q : CustomerCreate}
    (hfresh : ∀ r ∈ db.customers, r.rrnHash ≠ H q.rrn) :
    insertCustomer H db q = .ok ({ db with
      customers := db.customers ++ [rowOfPayload H db.nextCustomerId q],
      nextCustomerId := db.nextCustomerId + 1 }, db.nextCustomerId) := by
  unfold insertCustomer
  rw [if_neg]
  rw [any_eq_false_of (p := fun r => decide (r.rrnHash = H q.rrn))
    (fun x hx hpx => hfresh x hx (of_decide_eq_true hpx))]
  simp

/-- A colliding hash makes the insert raise `IntegrityError`. -/
theorem insertCustomer_collision {H : String → String} {db : DB} {q : CustomerCreate}
    {r : CustomerRow} (hr : r ∈ db.customers) (hh : r.rrnHash = H q.rrn) :
    insertCustomer H db q = .error .integrityError := by
  unfold insertCustomer
  rw [if_pos]
  rw [List.any_eq_true]
  exact ⟨r, hr, by simp [hh]⟩

/-- Inserting a fresh canonical row preserves the invariant. -/
theorem insertCustomer_inv {H : String → String} {db : DB} {q : CustomerCreate}
    (hInv : Inv H db) (hfresh : ∀ r ∈ db.customers, r.rrnHash ≠ H q.rrn) :
    Inv H { db with
      customers := db.customers ++ [rowOfPayload H db.nextCustomerId q],
      nextCustomerId := db.nextCustomerId + 1 } := by
  obtain ⟨hp, hlt, hform⟩ := hInv
  refine ⟨?_, ?_, ?_⟩
  · rw [List.pairwise_append]
    refine ⟨hp, List.pairwise_singleton _ _, ?_⟩
    intro a ha b hb
    simp only [List.mem_singleton] at hb
    subst hb
    exact ⟨fun h => absurd (h ▸ hlt a ha) (lt_irrefl _),
      hfresh a ha⟩
  · intro r hr
    rcases List.mem_append.1 hr with h | h
    · exact Nat.lt_succ_of_lt (hlt r h)
    · simp only [List.mem_singleton] at h
      subst h
      exact Nat.lt_succ_self _
  · intro r hr
    rcases List.mem_append.1 hr with h | h
    · exact hform r h
    · simp only [List.mem_singleton] at h
      subst h
      simp [rowOfPayload]

/-- `create_customer` under the invariant: either the canonical hash is
free and the plain insert succeeds with the next id, or an active row
holds it and the call fails with `DuplicateResidentId`; the
reconciliation branch for soft-deleted holders is unreachable because
soft-deleted rows are always tombstoned. -/
theorem create_customer_inv_cases {H : String → String} {db : DB}
    (q : CustomerCreate) (hH : HashFn H) (hInv : Inv H db) :
    ((∀ r ∈ db.customers, r.rrnHash ≠ H q.rrn) ∧
      create_customer H db q = .ok ({ db with
        customers := db.customers ++ [rowOfPayload H db.nextCustomerId q],
        nextCustomerId := db.nextCustomerId + 1 }, db.nextCustomerId)) ∨
    ((∃ r ∈ db.customers, r.deleted = false ∧ r.rrnHash = H q.rrn) ∧
      create_customer H db q = .error .duplicateResidentId) := by
  by_cases hfree : ∀ r ∈ db.customers, r.rrnHash ≠ H q.rrn
  · left
    refine ⟨hfree, ?_⟩
    unfold create_customer
    rw [insertCustomer_fresh hfree]
  · right
    push_neg at hfree
    obtain ⟨r, hr, hrh⟩ := hfree
    have hract : r.deleted = false := by
      by_contra hd
      rw [Bool.not_eq_false] at hd
      have := (hInv.2.2 r hr)
      rw [if_pos hd] at this
      exact tombstone_ne_colonFree (hH q.rrn) (this ▸ hrh)
    refine ⟨⟨r, hr, hract, hrh⟩, ?_⟩
    unfold create_customer
    rw [insertCustomer_collision hr hrh]
    have hfind : db.customers.find?
        (fun s => s.rrnHash = H q.rrn && !s.deleted) ≠ none := by
      intro hnone
      rw [List.find?_eq_none] at hnone
      exact hnone r hr (by simp [hrh, hract])
    obtain ⟨s, hs⟩ := Option.ne_none_iff_exists'.mp hfind
    rw [hs]

/-- The reconciliation branch of `create_customer`: when the canonical
hash is held by a soft-deleted row (and by no active row), that row is
re-hashed to its tombstone value and the insert is retried once,
succeeding with the next id.  `HashWF` (not the stronger `Inv`) is
assumed: this branch is live exactly for databases in which a deleted
row still holds a canonical hash. -/
theorem create_customer_reconcile {H : String → String} {db : DB}
    {q : CustomerCreate} {d : CustomerRow} (hH : HashFn H) (hwf : HashWF H db)
    (hd : d ∈ db.customers) (hdel : d.deleted = true)
    (hdh : d.rrnHash = H q.rrn)
    (hnoact : ∀ r ∈ db.customers, r.deleted = false → r.rrnHash ≠ H q.rrn) :
    create_customer H db q = .ok ({ db with
      customers := (db.customers.map (fun r =>
        if r.id = d.id then { r with rrnHash := tombstone d.rrnHash d.id } else r))
        ++ [rowOfPayload H db.nextCustomerId q],
      nextCustomerId := db.nextCustomerId + 1 }, db.nextCustomerId) := by
  have hcf : ColonFree d.rrnHash := hdh ▸ hH q.rrn
  unfold create_customer
  rw [insertCustomer_collision hd hdh]
  have hnone : db.customers.find?
      (fun s => s.rrnHash = H q.rrn && !s.deleted) = none := by
    rw [List.find?_eq_none]
    intro x hx hpx
    simp only [Bool.and_eq_true, decide_eq_true_eq, Bool.not_eq_true'] at hpx
    exact hnoact x hx hpx.2 hpx.1
  rw [hnone]
  have hfindd : db.customers.find?
      (fun s => s.rrnHash = H q.rrn && s.deleted) = some d := by
    rcases hx : db.customers.find? (fun s => s.rrnHash = H q.rrn && s.deleted)
      with _ | d'
    · rw [List.find?_eq_none] at hx
      exact absurd (by simp [hdh, hdel]) (hx d hd)
    · have hp := List.find?_some hx
      simp only [Bool.and_eq_true, decide_eq_true_eq] at hp
      have hmem := List.mem_of_find?_eq_some hx
      have : d' = d := eq_of_same_hash hwf.1 hmem hd (hp.1.trans hdh.symm)
      exact this ▸ hx
  rw [hfindd]
  have htfresh : db.customers.any
      (fun r => r.id ≠ d.id && r.rrnHash = tombstone d.rrnHash d.id) = false := by
    refine any_eq_false_of ?_
    intro x hx hpx
    simp only [Bool.and_eq_true, decide_eq_true_eq] at hpx
    rcases hwf.2 x hx with hc | ht
    · exact tombstone_ne_colonFree (hH x.rrn) (hpx.2.symm.trans hc)
    · have := tombstone_inj (hH x.rrn) hcf (ht.symm.trans hpx.2)
      exact hpx.1 this.2
  simp only [htfresh, Bool.false_eq_true, if_false]
  have hfresh2 : ∀ r' ∈ db.customers.map (fun r =>
      if r.id = d.id then { r with rrnHash := tombstone d.rrnHash d.id } else r),
      r'.rrnHash ≠ H q.rrn := by
    intro r' hr'
    rcases List.mem_map.1 hr' with ⟨x, hx, hfx⟩
    by_cases hxid : x.id = d.id
    · rw [← hfx, if_pos hxid]
      exact fun hcontra =>
        tombstone_ne_colonFree (hH q.rrn) (hcontra : tombstone d.rrnHash d.id = H q.rrn)
    · rw [← hfx, if_neg hxid]
      intro hcontra
      exact hxid (congrArg CustomerRow.id
        (eq_of_same_hash hwf.1 hx hd (hcontra.trans hdh.symm)))
  rw [insertCustomer_fresh hfresh2]

/-- A successful `update_customer` keeps the invariant. -/
theorem update_customer_inv {H : String → String} {db : DB} {cid : ℕ}
    {q : CustomerCreate} {db' : DB} {n : ℕ} (hInv : Inv H db)
    (h : update_customer H db cid q = .ok (db', n)) : Inv H db' := by
  unfold update_customer at h
  rcases hf : db.customers.find? (fun r => r.id = cid && !r.deleted) with _ | r
  · rw [hf] at h
    injection h with h1
    injection h1 with h1 h2
    exact h1 ▸ hInv
  · rw [hf] at h
    rcases hany : db.customers.any
        (fun s => s.id ≠ cid && s.rrnHash = H q.rrn) with _ | _
    · rw [hany] at h
      simp only [Bool.false_eq_true, if_false] at h
      injection h with h1
      injection h1 with h1 h2
      subst h1
      have hfresh : ∀ s ∈ db.customers, s.id ≠ cid → s.rrnHash ≠ H q.rrn := by
        intro s hs hsid
        have := forall_of_any_eq_false hany s hs
        simp only [Bool.and_eq_true, decide_eq_true_eq, not_and] at this
        exact this hsid
      obtain ⟨hp, hlt, hform⟩ := hInv
      refine ⟨?_, ?_, ?_⟩
      · exact pairwise_modify_row _ _
          (fun s hc => by
            simp only [Bool.and_eq_true, decide_eq_true_eq] at hc
            exact hc.1)
          (fun s => rfl) (fun s => rfl) hfresh hp
      · intro r' hr'
        rcases List.mem_map.1 hr' with ⟨x, hx, hfx⟩
        have : r'.id = x.id := by
          rw [← hfx]
          by_cases hc : (x.id = cid && !x.deleted) = true
          · rw [if_pos hc]
          · rw [if_neg hc]
        exact this ▸ hlt x hx
      · intro r' hr'
        rcases List.mem_map.1 hr' with ⟨x, hx, hfx⟩
        by_cases hc : (x.id = cid && !x.deleted) = true
        · rw [if_pos hc] at hfx
          simp only [Bool.and_eq_true, decide_eq_true_eq, Bool.not_eq_true'] at hc
          rw [← hfx]
          simp [hc.2]
        · rw [if_neg hc] at hfx
          exact hfx ▸ hform x hx
    · rw [hany] at h
      simp only [if_true] at h
      cases h

/-- `soft_delete_customer` refuses while an active insurance exists. -/
theorem soft_delete_dependency {db : DB} {cid : ℕ}
    (h : ∃ i ∈ db.insurances, i.customerId = cid ∧ i.deleted = false) :
    soft_delete_customer db cid = .error .activeDependencyExists := by
  unfold soft_delete_customer
  rw [if_pos]
  rw [List.any_eq_true]
  obtain ⟨i, hi, h1, h2⟩ := h
  exact ⟨i, hi, by simp [h1, h2]⟩

/-- With no active insurance and an active target row whose tombstone
value is fresh, the single UPDATE statement marks the row deleted and
tombstones its hash. -/
theorem soft_delete_success {db : DB} {cid : ℕ} {r : CustomerRow}
    (hno : ∀ i ∈ db.insurances, i.customerId = cid → i.deleted = true)
    (hf : db.customers.find? (fun s => s.id = cid && !s.deleted) = some r)
    (hfresh : ∀ s ∈ db.customers, s.id ≠ cid →
      s.rrnHash ≠ tombstone r.rrnHash r.id) :
    soft_delete_customer db cid = .ok ({ db with
      customers := db.customers.map (fun s =>
        if s.id = cid && !s.deleted then
          { s with deleted := true, rrnHash := tombstone r.rrnHash r.id }
        else s) }, 1) := by
  unfold soft_delete_customer
  rw [if_neg]
  · rw [hf]
    have : db.customers.any
        (fun s => s.id ≠ cid && s.rrnHash = tombstone r.rrnHash r.id) = false := by
      refine any_eq_false_of ?_
      intro x hx hpx
      simp only [Bool.and_eq_true, decide_eq_true_eq] at hpx
      exact hfresh x hx hpx.1 hpx.2
    simp only [this, Bool.false_eq_true, if_false]
  · rw [List.any_eq_true]
    rintro ⟨i, hi, hpi⟩
    simp only [Bool.and_eq_true, decide_eq_true_eq, Bool.not_eq_true'] at hpi
    exact absurd (hno i hi hpi.1) (by simp [hpi.2])

/-- A successful `soft_delete_customer` keeps the invariant. -/
theorem soft_delete_inv {H : String → String} {db : DB} {cid : ℕ}
    {db' : DB} {n : ℕ} (hInv : Inv H db)
    (h : soft_delete_customer db cid = .ok (db', n)) : Inv H db' := by
  unfold soft_delete_customer at h
  split at h
  · cases h
  split at h
  · injection h with h1
    injection h1 with h1 h2
    exact h1 ▸ hInv
  rename_i r hf
  dsimp only [] at h
  split at h
  · cases h
  rename_i hany
  rw [Bool.not_eq_true] at hany
  injection h with h1
  injection h1 with h1 h2
  subst h1
  have hrp := List.find?_some hf
  simp only [Bool.and_eq_true, decide_eq_true_eq, Bool.not_eq_true'] at hrp
  have hrmem := List.mem_of_find?_eq_some hf
  have hfresh : ∀ s ∈ db.customers, s.id ≠ cid →
      s.rrnHash ≠ tombstone r.rrnHash r.id := by
    intro s hs hsid
    have := forall_of_any_eq_false hany s hs
    simp only [Bool.and_eq_true, decide_eq_true_eq, not_and] at this
    exact this hsid
  obtain ⟨hp, hlt, hform⟩ := hInv
  have hrcanon : r.rrnHash = H r.rrn := by
    have := hform r hrmem
    rwa [hrp.2, if_neg (by simp)] at this
  refine ⟨?_, ?_, ?_⟩
  · exact pairwise_modify_row _ _
      (fun s hc => by
        simp only [Bool.and_eq_true, decide_eq_true_eq] at hc
        exact hc.1)
      (fun s => rfl) (fun s => rfl) hfresh hp
  · intro r' hr'
    rcases List.mem_map.1 hr' with ⟨x, hx, hfx⟩
    have : r'.id = x.id := by
      rw [← hfx]
      by_cases hc : (x.id = cid && !x.deleted) = true
      · rw [if_pos hc]
      · rw [if_neg hc]
    exact this ▸ hlt x hx
  · intro r' hr'
    rcases List.mem_map.1 hr' with ⟨x, hx, hfx⟩
    by_cases hc : (x.id = cid && !x.deleted) = true
    · rw [if_pos hc] at hfx
      simp only [Bool.and_eq_true, decide_eq_true_eq, Bool.not_eq_true'] at hc
      have hxr : x = r := eq_of_same_id hp hx hrmem (hc.1.trans hrp.1.symm)
      subst hxr
      rw [← hfx]
      simp [hrcanon]
    · rw [if_neg hc] at hfx
      exact hfx ▸ hform x hx

/-- Restore of an id with no row at all affects zero rows. -/
theorem restore_customer_missing {H : String → String} {db : DB} {cid : ℕ}
    (hf : db.customers.find? (fun r => r.id = cid) = none) :
    restore_customer H db cid = .ok (db, 0) := by
  unfold restore_customer
  rw [hf]

/-- Restore of an already-active id affects zero rows. -/
theorem restore_customer_active {H : String → String} {db : DB} {cid : ℕ}
    {r : CustomerRow} (hf : db.customers.find? (fun s => s.id = cid) = some r)
    (hact : r.deleted = false) :
    restore_customer H db cid = .ok (db, 0) := by
  unfold restore_customer
  rw [hf]
  simp [hact]

/-- Restore fails with `RestoreConflict` when another active row holds
the canonical hash of the stored resident-id. -/
theorem restore_customer_conflict {H : String → String} {db : DB} {cid : ℕ}
    {r : CustomerRow} (hf : db.customers.find? (fun s => s.id = cid) = some r)
    (hdel : r.deleted = true)
    (hconf : ∃ s ∈ db.customers, s.rrnHash = H r.rrn ∧ s.deleted = false ∧ s.id ≠ cid) :
    restore_customer H db cid = .error .restoreConflict := by
  unfold restore_customer
  rw [hf]
  dsimp only []
  rw [hdel]
  simp only [Bool.not_true, Bool.false_eq_true, if_false]
  have : db.customers.find?
      (fun s => s.rrnHash = H r.rrn && !s.deleted && s.id ≠ cid) ≠ none := by
    intro hnone
    rw [List.find?_eq_none] at hnone
    obtain ⟨s, hs, h1, h2, h3⟩ := hconf
    exact hnone s hs (by simp [h1, h2, h3])
  obtain ⟨s, hs⟩ := Option.ne_none_iff_exists'.mp this
  rw [hs]

/-- Restore succeeds when the canonical hash is held by no other row:
the one UPDATE clears `deleted_at` and resets the hash. -/
theorem restore_customer_success {H : String → String} {db : DB} {cid : ℕ}
    {r : CustomerRow} (hf : db.customers.find? (fun s => s.id = cid) = some r)
    (hdel : r.deleted = true)
    (hfresh : ∀ s ∈ db.customers, s.id ≠ cid → s.rrnHash ≠ H r.rrn) :
    restore_customer H db cid = .ok ({ db with
      customers := db.customers.map (fun s =>
        if s.id = cid && s.deleted then
          { s with deleted := false, rrnHash := H r.rrn }
        else s) }, 1) := by
  unfold restore_customer
  rw [hf]
  dsimp only []
  rw [hdel]
  simp only [Bool.not_true, Bool.false_eq_true, if_false]
  have hnone : db.customers.find?
      (fun s => s.rrnHash = H r.rrn && !s.deleted && s.id ≠ cid) = none := by
    rw [List.find?_eq_none]
    intro s hs hps
    simp only [Bool.and_eq_true, decide_eq_true_eq, Bool.not_eq_true'] at hps
    exact hfresh s hs hps.2 hps.1.1
  rw [hnone]
  have hany : db.customers.any
      (fun s => s.id ≠ cid && s.rrnHash = H r.rrn) = false := by
    refine any_eq_false_of ?_
    intro s hs hps
    simp only [Bool.and_eq_true, decide_eq_true_eq] at hps
    exact hfresh s hs hps.1 hps.2
  simp only [hany, Bool.false_eq_true, if_false]

/-- A successful `restore_customer` keeps the invariant. -/
theorem restore_inv {H : String → String} {db : DB} {cid : ℕ}
    {db' : DB} {n : ℕ} (hInv : Inv H db)
    (h : restore_customer H db cid = .ok (db', n)) : Inv H db' := by
  unfold restore_customer at h
  split at h
  · injection h with h1
    injection h1 with h1 h2
    exact h1 ▸ hInv
  rename_i r hf
  split at h
  · injection h with h1
    injection h1 with h1 h2
    exact h1 ▸ hInv
  rename_i hdel
  rw [Bool.not_eq_true', Bool.not_eq_false] at hdel
  split at h
  · cases h
  rename_i hnoconf
  split at h
  · cases h
  rename_i hany
  rw [Bool.not_eq_true] at hany
  injection h with h1
  injection h1 with h1 h2
  subst h1
  have hrp := List.find?_some hf
  simp only [decide_eq_true_eq] at hrp
  have hrmem := List.mem_of_find?_eq_some hf
  have hfresh : ∀ s ∈ db.customers, s.id ≠ cid → s.rrnHash ≠ H r.rrn := by
    intro s hs hsid
    have := forall_of_any_eq_false hany s hs
    simp only [Bool.and_eq_true, decide_eq_true_eq, not_and] at this
    exact this hsid
  obtain ⟨hp, hlt, hform⟩ := hInv
  refine ⟨?_, ?_, ?_⟩
  · exact pairwise_modify_row _ _
      (fun s hc => by
        simp only [Bool.and_eq_true, decide_eq_true_eq] at hc
        exact hc.1)
      (fun s => rfl) (fun s => rfl) hfresh hp
  · intro r' hr'
    rcases List.mem_map.1 hr' with ⟨x, hx, hfx⟩
    have : r'.id = x.id := by
      rw [← hfx]
      by_cases hc : (x.id = cid && x.deleted) = true
      · rw [if_pos hc]
      · rw [if_neg hc]
    exact this ▸ hlt x hx
  · intro r' hr'
    rcases List.mem_map.1 hr' with ⟨x, hx, hfx⟩
    by_cases hc : (x.id = cid && x.deleted) = true
    · rw [if_pos hc] at hfx
      simp only [Bool.and_eq_true, decide_eq_true_eq] at hc
      have hxr : x = r := eq_of_same_id hp hx hrmem (hc.1.trans hrp.symm)
      subst hxr
      rw [← hfx]
      simp
    · rw [if_neg hc] at hfx
      exact hfx ▸ hform x hx

/-- `hard_delete_customer` keeps the invariant. -/
theorem hard_delete_inv {H : String → String} {db : DB} {cid : ℕ}
    {db' : DB} {n : ℕ} (hInv : Inv H db)
    (h : hard_delete_customer db cid = .ok (db', n)) : Inv H db' := by
  unfold hard_delete_customer at h
  injection h with h1
  injection h1 with h1 h2
  subst h1
  obtain ⟨hp, hlt, hform⟩ := hInv
  refine ⟨hp.sublist (List.filter_sublist _), ?_, ?_⟩
  · intro r hr
    exact hlt r (List.mem_of_mem_filter hr)
  · intro r hr
    exact hform r (List.mem_of_mem_filter hr)

/-- A successful `create_customer` keeps the invariant. -/
theorem create_customer_ok_inv {H : String → String} {db : DB}
    {q : CustomerCreate} {db' : DB} {n : ℕ} (hH : HashFn H) (hInv : Inv H db)
    (h : create_customer H db q = .ok (db', n)) : Inv H db' := by
  rcases create_customer_inv_cases q hH hInv with ⟨hfree, heq⟩ | ⟨_, heq⟩
  · rw [heq] at h
    injection h with h1
    injection h1 with h1 h2
    exact h1 ▸ insertCustomer_inv hInv hfree
  · rw [heq] at h
    cases h

/-! ## Sequences of repository operations -/

/-- One customer-repository operation. -/
inductive Op where
  | create (q : CustomerCreate)
  | update (cid : ℕ) (q : CustomerCreate)
  | softDelete (cid : ℕ)
  | restore (cid : ℕ)
  | hardDelete (cid : ℕ)

/-- The database after a repository call: the new state on success, the
old state when the call raised (each statement auto-commits, so a raise
leaves the store as it was). -/
def resultDB (db : DB) : Except RepoError (DB × ℕ) → DB
  | .ok (db1, _) => db1
  | .error _ => db

def applyOp (H : String → String) (db : DB) : Op → DB
  | .create q => resultDB db (create_customer H db q)
  | .update cid q => resultDB db (update_customer H db cid q)
  | .softDelete cid => resultDB db (soft_delete_customer db cid)
  | .restore cid => resultDB db (restore_customer H db cid)
  | .hardDelete cid => resultDB db (hard_delete_customer db cid)

def runOps (H : String → String) (ops : List Op) : DB :=
  ops.foldl (applyOp H) emptyDB

/-- A database state produced by some sequence of customer-repository
operations from the empty store. -/
def Reachable (H : String → String) (db : DB) : Prop :=
  ∃ ops : List Op, db = runOps H ops

theorem inv_emptyDB (H : String → String) : Inv H emptyDB := by
  refine ⟨List.Pairwise.nil, ?_, ?_⟩ <;> intro r hr <;> cases hr

theorem applyOp_inv {H : String → String} {db : DB} (hH : HashFn H)
    (hInv : Inv H db) (op : Op) : Inv H (applyOp H db op) := by
  cases op with
  | create q =>
    dsimp only [applyOp]
    rcases h : create_customer H db q with e | ⟨db1, n⟩
    · exact hInv
    · exact create_customer_ok_inv hH hInv h
  | update cid q =>
    dsimp only [applyOp]
    rcases h : update_customer H db cid q with e | ⟨db1, n⟩
    · exact hInv
    · exact update_customer_inv hInv h
  | softDelete cid =>
    dsimp only [applyOp]
    rcases h : soft_delete_customer db cid with e | ⟨db1, n⟩
    · exact hInv
    · exact soft_delete_inv hInv h
  | restore cid =>
    dsimp only [applyOp]
    rcases h : restore_customer H db cid with e | ⟨db1, n⟩
    · exact hInv
    · exact restore_inv hInv h
  | hardDelete cid =>
    dsimp only [applyOp]
    rcases h : hard_delete_customer db cid with e | ⟨db1, n⟩
    · exact hInv
    · exact hard_delete_inv hInv h

/-- Every reachable state satisfies the invariant. -/
theorem reachable_inv {H : String → String} {db : DB} (hH : HashFn H)
    (hdb : Reachable H db) : Inv H db := by
  obtain ⟨ops, rfl⟩ := hdb
  unfold runOps
  induction ops using List.reverseRecOn with
  | nil => exact inv_emptyDB H
  | append_singleton ops op ih =>
    rw [List.foldl_append, List.foldl_cons, List.foldl_nil]
    exact applyOp_inv hH ih op

/-! ## Error classification for the CSV importer -/

theorem except_bind_error {α β : Type} {x : Except RepoError α}
    {f : α → Except RepoError β} {e : RepoError}
    (h : (x >>= f) = .error e) :
    x = .error e ∨ ∃ a, x = .ok a ∧ f a = .error e := by
  cases x with
  | error e' =>
    left
    have : e' = e := by
      simpa [Bind.bind, Except.bind] using h
    rw [this]
  | ok a =>
    right
    refine ⟨a, rfl, ?_⟩
    simpa [Bind.bind, Except.bind] using h

theorem validate_rrn_error {s : String} {e : RepoError}
    (h : validate_rrn s = .error e) : catchable e = true := by
  unfold validate_rrn at h
  dsimp only [] at h
  split at h
  · injection h with h1
    rw [← h1]
    rfl
  · split at h
    · injection h with h1
      rw [← h1]
      rfl
    · cases h

theorem validate_phone_error {s : String} {e : RepoError}
    (h : validate_phone s = .error e) : catchable e = true := by
  unfold validate_phone at h
  split at h
  · cases h
  · injection h with h1
    rw [← h1]
    rfl

theorem validate_required_text_error {s t : String} {e : RepoError}
    (h : validate_required_text s t = .error e) : catchable e = true := by
  unfold validate_required_text at h
  dsimp only [] at h
  split at h
  · injection h with h1
    rw [← h1]
    rfl
  · cases h

theorem validate_optional_number_error {s t : String} {a b : ℕ} {e : RepoError}
    (h : validate_optional_number s t a b = .error e) : catchable e = true := by
  unfold validate_optional_number at h
  dsimp only [] at h
  split at h
  · cases h
  · split at h
    · injection h with h1
      rw [← h1]
      rfl
    · split at h
      · injection h with h1
        rw [← h1]
        rfl
      · cases h

/-- Every error `CustomerService._validate` can raise is a
`ValidationError`, hence caught by the CSV importer. -/
theorem validateCustomer_error {p : CustomerCreate} {e : RepoError}
    (h : validateCustomer p = .error e) : catchable e = true := by
  unfold validateCustomer at h
  rcases except_bind_error h with h1 | ⟨name, _, h1⟩
  · exact validate_required_text_error h1
  rcases except_bind_error h1 with h2 | ⟨rrn, _, h2⟩
  · exact validate_rrn_error h2
  rcases except_bind_error h2 with h3 | ⟨phone, _, h3⟩
  · exact validate_phone_error h3
  rcases except_bind_error h3 with h4 | ⟨address, _, h4⟩
  · exact validate_required_text_error h4
  rcases except_bind_error h4 with h5 | ⟨pc, _, h5⟩
  · exact validate_optional_number_error h5
  rcases except_bind_error h5 with h6 | ⟨pa, _, h6⟩
  · exact validate_optional_number_error h6
  rcases except_bind_error h6 with h7 | ⟨po, _, h7⟩
  · exact validate_optional_number_error h7
  cases h7

theorem rowGet_error {row : CsvRow} {k : String} {e : RepoError}
    (h : rowGet row k = .error e) : catchable e = true := by
  unfold rowGet at h
  split at h
  · cases h
  · injection h with h1
    rw [← h1]
    rfl

/-- A successful cell lookup on a row without `None` cells yields an
actual string. -/
theorem rowGet_ok_cell {row : CsvRow} {k : String} {v : Option String}
    (hrow : ∀ kv ∈ row, kv.2 ≠ none) (h : rowGet row k = .ok v) :
    v ≠ none := by
  unfold rowGet at h
  split at h
  · rename_i p hp
    injection h with h1
    exact h1 ▸ hrow p (List.mem_of_find?_eq_some hp)
  · cases h

theorem cellValue_error {v : Option String} {e : RepoError}
    (h : cellValue v = .error e) : v = none := by
  cases v with
  | none => rfl
  | some s => cases h

/-- Over a row without `None` cells, every `payloadOfRow` failure is a
`KeyError`, hence caught by the row loop. -/
theorem payloadOfRow_error {row : CsvRow} {e : RepoError}
    (hrow : ∀ kv ∈ row, kv.2 ≠ none)
    (h : payloadOfRow row = .error e) : catchable e = true := by
  unfold payloadOfRow at h
  rcases except_bind_error h with h1 | ⟨v1, hv1, h1⟩
  · exact rowGet_error h1
  rcases except_bind_error h1 with h2 | ⟨v2, hv2, h2⟩
  · exact rowGet_error h2
  rcases except_bind_error h2 with h3 | ⟨v3, hv3, h3⟩
  · exact rowGet_error h3
  rcases except_bind_error h3 with h4 | ⟨v4, hv4, h4⟩
  · exact rowGet_error h4
  rcases except_bind_error h4 with h5 | ⟨v5, hv5, h5⟩
  · exact rowGet_error h5
  rcases except_bind_error h5 with h6 | ⟨v6, hv6, h6⟩
  · exact rowGet_error h6
  rcases except_bind_error h6 with h7 | ⟨v7, hv7, h7⟩
  · exact rowGet_error h7
  rcases except_bind_error h7 with h8 | ⟨v8, hv8, h8⟩
  · exact rowGet_error h8
  rcases except_bind_error h8 with h9 | ⟨v9, hv9, h9⟩
  · exact rowGet_error h9
  rcases except_bind_error h9 with h10 | ⟨v10, hv10, h10⟩
  · exact rowGet_error h10
  rcases except_bind_error h10 with h11 | ⟨_, _, h11⟩
  · exact absurd (cellValue_error h11) (rowGet_ok_cell hrow hv1)
  rcases except_bind_error h11 with h12 | ⟨_, _, h12⟩
  · exact absurd (cellValue_error h12) (rowGet_ok_cell hrow hv2)
  rcases except_bind_error h12 with h13 | ⟨_, _, h13⟩
  · exact absurd (cellValue_error h13) (rowGet_ok_cell hrow hv3)
  rcases except_bind_error h13 with h14 | ⟨_, _, h14⟩
  · exact absurd (cellValue_error h14) (rowGet_ok_cell hrow hv4)
  rcases except_bind_error h14 with h15 | ⟨_, _, h15⟩
  · exact absurd (cellValue_error h15) (rowGet_ok_cell hrow hv5)
  rcases except_bind_error h15 with h16 | ⟨_, _, h16⟩
  · exact absurd (cellValue_error h16) (rowGet_ok_cell hrow hv6)
  rcases except_bind_error h16 with h17 | ⟨_, _, h17⟩
  · exact absurd (cellValue_error h17) (rowGet_ok_cell hrow hv7)
  rcases except_bind_error h17 with h18 | ⟨_, _, h18⟩
  · exact absurd (cellValue_error h18) (rowGet_ok_cell hrow hv8)
  rcases except_bind_error h18 with h19 | ⟨_, _, h19⟩
  · exact absurd (cellValue_error h19) (rowGet_ok_cell hrow hv9)
  rcases except_bind_error h19 with h20 | ⟨_, _, h20⟩
  · exact absurd (cellValue_error h20) (rowGet_ok_cell hrow hv10)
  cases h20

/-- Under the invariant, one CSV row step on a row without `None` cells
either succeeds and keeps the invariant or fails with an error the row
loop catches. -/
theorem stepCustomer_cases {H : String → String} {db : DB} (hH : HashFn H)
    (hInv : Inv H db) (row : CsvRow) (hrow : ∀ kv ∈ row, kv.2 ≠ none) :
    (∃ db1, stepCustomer H db row = .ok db1 ∧ Inv H db1) ∨
    (∃ e, stepCustomer H db row = .error e ∧ catchable e = true) := by
  unfold stepCustomer
  rcases hp : payloadOfRow row with e | p
  · right
    exact ⟨e, by simp [Bind.bind, Except.bind], payloadOfRow_error hrow hp⟩
  unfold service_create_customer
  rcases hv : validateCustomer p with e | q
  · right
    exact ⟨e, by simp [Bind.bind, Except.bind, hv], validateCustomer_error hv⟩
  rcases create_customer_inv_cases q hH hInv with ⟨hfree, heq⟩ | ⟨_, heq⟩
  · left
    refine ⟨_, ?_, insertCustomer_inv hInv hfree⟩
    simp [Bind.bind, Except.bind, hv, heq]
  · right
    refine ⟨.duplicateResidentId, ?_, rfl⟩
    simp [Bind.bind, Except.bind, hv, heq]

/-- The row loop of `import_customers` under the invariant: it always
returns a result (never aborts on a caught row failure), the counters
add up, messages are capped at 10, and every new message carries its
1-based CSV row number and the caught error's text. -/
theorem importLoop_spec {H : String → String} (hH : HashFn H) :
    ∀ (rows : List CsvRow) (db : DB) (idx created failed : ℕ)
      (errors : List String), Inv H db → errors.length ≤ 10 →
    (∀ row ∈ rows, ∀ kv ∈ row, kv.2 ≠ none) →
    ∃ (db1 : DB) (c k : ℕ) (msgs : List String),
      importLoop H db idx created failed errors rows =
        .ok (db1, ⟨created + c, failed + k, msgs⟩) ∧
      c + k = rows.length ∧
      msgs.length = min (errors.length + k) 10 ∧
      (∀ m ∈ msgs, m ∈ errors ∨ ∃ j e, idx ≤ j ∧ j < idx + rows.length ∧
        catchable e = true ∧ m = natToDec j ++ "행: " ++ errMsg e) ∧
      Inv H db1 := by
  intro rows
  induction rows with
  | nil =>
    intro db idx created failed errors hInv hlen hrows
    refine ⟨db, 0, 0, errors, by simp [importLoop], by simp, by omega,
      fun m hm => .inl hm, hInv⟩
  | cons row rest ih =>
    intro db idx created failed errors hInv hlen hrows
    have hrest : ∀ r ∈ rest, ∀ kv ∈ r, kv.2 ≠ none :=
      fun r hr => hrows r (List.mem_cons_of_mem row hr)
    rcases stepCustomer_cases hH hInv row
      (hrows row (List.mem_cons_self row rest)) with ⟨db1, hstep, hInv1⟩ |
      ⟨e, hstep, hcatch⟩
    · obtain ⟨db2, c, k, msgs, heq, hck, hmlen, hmem, hInv2⟩ :=
        ih db1 (idx + 1) (created + 1) failed errors hInv1 hlen hrest
      have harith : created + 1 + c = created + (c + 1) := by omega
      rw [harith] at heq
      refine ⟨db2, c + 1, k, msgs, ?_, by simp only [List.length_cons]; omega, hmlen, ?_, hInv2⟩
      · rw [importLoop, hstep]
        exact heq
      · intro m hm
        rcases hmem m hm with hl | ⟨j, e, hj1, hj2, hc, hmsg⟩
        · exact .inl hl
        · exact .inr ⟨j, e, by omega, by simp only [List.length_cons]; omega,
            hc, hmsg⟩
    · set newErrors := if errors.length < 10 then
        errors ++ [natToDec idx ++ "행: " ++ errMsg e] else errors with hnew
      have hnewlen : newErrors.length ≤ 10 := by
        rw [hnew]
        by_cases hcase : errors.length < 10
        · rw [if_pos hcase]
          simp only [List.length_append, List.length_singleton]
          omega
        · rw [if_neg hcase]
          exact hlen
      obtain ⟨db2, c, k, msgs, heq, hck, hmlen, hmem, hInv2⟩ :=
        ih db (idx + 1) created (failed + 1) newErrors hInv hnewlen hrest
      have harith : failed + 1 + k = failed + (k + 1) := by omega
      rw [harith] at heq
      refine ⟨db2, c, k + 1, msgs, ?_, by simp only [List.length_cons]; omega, ?_, ?_, hInv2⟩
      · rw [importLoop, hstep]
        simp only [hcatch, if_true]
        exact heq
      · rw [hmlen, hnew]
        by_cases hcase : errors.length < 10
        · rw [if_pos hcase]
          simp only [List.length_append, List.length_singleton]
          omega
        · rw [if_neg hcase]
          omega
      · intro m hm
        rcases hmem m hm with hl | ⟨j, e', hj1, hj2, hc, hmsg⟩
        · rw [hnew] at hl
          by_cases hcase : errors.length < 10
          · rw [if_pos hcase] at hl
            rcases List.mem_append.1 hl with h1 | h1
            · exact .inl h1
            · simp only [List.mem_singleton] at h1
              exact .inr ⟨idx, e, le_refl idx,
                by simp only [List.length_cons]; omega, hcatch, h1⟩
          · rw [if_neg hcase] at hl
            exact .inl hl
        · exact .inr ⟨j, e', by omega, by simp only [List.length_cons]; omega,
            hc, hmsg⟩

/-! ## Concrete instances used by the witnesses -/

/-- A concrete colon-free hash function standing in for the SHA-256 hex
digest in executable witnesses. -/
def hashConcrete (s : String) : String :=
  String.mk (s.data.filter (fun c => c ≠ ':'))

theorem hashConcrete_hashFn : HashFn hashConcrete := by
  intro s hmem
  unfold hashConcrete at hmem
  have := List.of_mem_filter hmem
  simp at this

/-- A concrete `AEADScheme` (the identity cipher over code points),
used to instantiate the abstract AES-GCM interface in witnesses. -/
def codepointScheme : AEADScheme where
  enc := fun _ _ s => s.data.map Char.toNat
  dec := fun _ _ l => some (String.mk (l.map Char.ofNat))
  dec_enc := by
    intro key nonce s _ _
    cases s with
    | mk l =>
      simp only [List.map_map, Option.some.injEq]
      congr 1
      have : ∀ c ∈ l, (Char.ofNat ∘ Char.toNat) c = c := fun c _ => Char.ofNat_toNat c
      rw [List.map_congr_left this]
      exact List.map_id' l

/-! # The claims -/

/-- C3: for every (abstract) AES-256-GCM scheme, every 32-byte key,
12-byte nonce and UTF-8 plaintext string, decrypting the blob produced
by `encrypt_text` returns the plaintext; the blob is the 12-byte nonce
followed by ciphertext-plus-tag, and `decrypt_text` splits the first 12
bytes as the nonce and the remainder as ciphertext-plus-tag. -/
theorem crypto_roundtrip_and_layout (A : AEADScheme) (key nonce : List ℕ)
    (s : String) (hk : key.length = KEY_SIZE) (hn : nonce.length = NONCE_SIZE) :
    decrypt_text A key (encrypt_text A key nonce s) = some s ∧
    (encrypt_text A key nonce s).take NONCE_SIZE = nonce ∧
    (encrypt_text A key nonce s).drop NONCE_SIZE = A.enc key nonce s := by
  have htake : (encrypt_text A key nonce s).take NONCE_SIZE = nonce := by
    unfold encrypt_text
    rw [← hn, List.take_left]
  have hdrop : (encrypt_text A key nonce s).drop NONCE_SIZE = A.enc key nonce s := by
    unfold encrypt_text
    rw [← hn, List.drop_left]
  refine ⟨?_, htake, hdrop⟩
  unfold decrypt_text
  rw [htake, hdrop]
  exact A.dec_enc key nonce s hk hn

/-- Witness for C3 at a concrete scheme, key, nonce and plaintext. -/
theorem crypto_roundtrip_witness :
    decrypt_text codepointScheme (List.replicate 32 0)
      (encrypt_text codepointScheme (List.replicate 32 0)
        (List.replicate 12 7) "주민등록 13자리") = some "주민등록 13자리" := by
  exact (crypto_roundtrip_and_layout codepointScheme (List.replicate 32 0)
    (List.replicate 12 7) "주민등록 13자리" (by decide) (by decide)).1

/-- C10: `mask_rrn` is partial.  When the dash-stripped resident-id has
at least 7 characters it returns the first 6 characters, a dash, the
7th character and exactly six asterisks; with fewer than 7 characters
it raises `IndexError` (modelled as `none`) instead of returning a
masked string. -/
theorem mask_rrn_behavior (s : String) :
    (∀ h7 : 7 ≤ (stripDashes s).data.length,
      mask_rrn s = some (String.mk ((stripDashes s).data.take 6) ++ "-" ++
        String.mk [(stripDashes s).data.get ⟨6, by omega⟩] ++ "******")) ∧
    ((stripDashes s).data.length < 7 → mask_rrn s = none) := by
  constructor
  · intro h7
    unfold mask_rrn pyIndex
    dsimp only []
    rw [List.get?_eq_get (by omega)]
    rfl
  · intro hlt
    unfold mask_rrn pyIndex
    dsimp only []
    rw [List.get?_eq_none.mpr (by omega)]
    rfl

/-- Witness for C10: the spec's example masks, and a short input fails. -/
theorem mask_rrn_behavior_witness :
    mask_rrn "123456-1234567" = some "123456-1******" ∧
    mask_rrn "12345" = none := by
  constructor
  · rw [(mask_rrn_behavior "123456-1234567").1 (by decide)]
    rfl
  · exact (mask_rrn_behavior "12345").2 (by decide)

/-- C7 (code bug): `InsuranceRepository` defines no
`hard_delete_insurance` method, so
`InsuranceService.hard_delete_insurance`, which dispatches exactly that
attribute name on the repository, raises `AttributeError` for every
insurance id — existing or missing — instead of removing the row,
auditing, or reporting `NotFoundError`. -/
theorem insurance_hard_delete_method_missing :
    serviceHardDeleteTarget ∉ insuranceRepositoryMethods := by
  decide

/-- The key-bootstrap claim exactly as stated: a missing key with an
existing database and no runtime key file is fatal; *otherwise* the
bootstrap generates any missing key and persists both keys to the
runtime key file. -/
def BootstrapClaimStatement : Prop :=
  ∀ (e : KeyEnv) (f1 f2 : String),
    (((e.dbKey = none ∨ e.encryptionKey = none) ∧ e.dbFileExists = true ∧
        e.runtimeEnvExists = false) →
      ∃ m, bootstrap_default_keys e f1 f2 = .error m) ∧
    (¬((e.dbKey = none ∨ e.encryptionKey = none) ∧ e.dbFileExists = true ∧
        e.runtimeEnvExists = false) →
      ∃ out, bootstrap_default_keys e f1 f2 = .ok out ∧
        out.wroteRuntimeEnv = true)

/-- C4 (counterexample): with both keys already present the bootstrap
returns without writing the runtime key file, refuting the claim's
"otherwise ... persists both to the runtime key file" branch. -/
theorem bootstrap_claim_counterexample : ¬ BootstrapClaimStatement := by
  intro hcl
  have h := (hcl ⟨some "k1", some "k2", true, true⟩ "f1" "f2").2 (by simp)
  obtain ⟨out, hout, hw⟩ := h
  have : out = ⟨"k1", "k2", false⟩ := by
    have heval : bootstrap_default_keys ⟨some "k1", some "k2", true, true⟩
        "f1" "f2" = .ok ⟨"k1", "k2", false⟩ := rfl
    rw [heval] at hout
    injection hout with h1
    exact h1.symm
  rw [this] at hw
  cases hw

/-- C4 (amended): when at least one key is absent, an existing
encrypted database without a runtime key file is fatal and no key is
generated; when at least one key is absent otherwise, the missing keys
are generated, both are set into the environment and both are persisted
to the runtime key file; when both keys are already present the
bootstrap returns without generating or persisting anything. -/
theorem bootstrap_amended (e : KeyEnv) (f1 f2 : String) :
    ((pyTruthy e.dbKey && pyTruthy e.encryptionKey) = true →
      bootstrap_default_keys e f1 f2 =
        .ok ⟨e.dbKey.getD "", e.encryptionKey.getD "", false⟩) ∧
    ((pyTruthy e.dbKey && pyTruthy e.encryptionKey) = false →
      e.dbFileExists = true → e.runtimeEnvExists = false →
      bootstrap_default_keys e f1 f2 =
        .error ("Runtime key file is missing while database file exists. " ++
          "Restore key file or set MANIM_DB_KEY/MANIM_ENCRYPTION_KEY.")) ∧
    ((pyTruthy e.dbKey && pyTruthy e.encryptionKey) = false →
      (e.dbFileExists = false ∨ e.runtimeEnvExists = true) →
      bootstrap_default_keys e f1 f2 =
        .ok ⟨pyOrElse e.dbKey f1, pyOrElse e.encryptionKey f2, true⟩) := by
  refine ⟨?_, ?_, ?_⟩
  · intro h
    unfold bootstrap_default_keys
    rw [if_pos h]
  · intro h hdb hre
    unfold bootstrap_default_keys
    rw [if_neg (by simp [h]), if_pos (by simp [hdb, hre])]
  · intro h hor
    unfold bootstrap_default_keys
    rw [if_neg (by simp [h]), if_neg]
    rcases hor with h1 | h1 <;> simp [h1]

/-- Witness for C4's amended theorem: one key absent, database present,
runtime key file present → both keys end up set and persisted. -/
theorem bootstrap_amended_witness :
    bootstrap_default_keys ⟨none, some "enc", true, true⟩ "freshDb" "freshEnc" =
      .ok ⟨"freshDb", "enc", true⟩ := by
  exact (bootstrap_amended ⟨none, some "enc", true, true⟩ "freshDb" "freshEnc").2.2
    (by decide) (Or.inr rfl)

/-- Under the invariant, no other row holds the tombstone value of a
row that carries its canonical hash. -/
theorem inv_tombstone_fresh {H : String → String} {db : DB}
    (hH : HashFn H) (hInv : Inv H db) {r : CustomerRow}
    (hcanon : r.rrnHash = H r.rrn) :
    ∀ s ∈ db.customers, s.id ≠ r.id → s.rrnHash ≠ tombstone r.rrnHash r.id := by
  intro s hs hsid hcontra
  have hform := hInv.2.2 s hs
  by_cases hd : s.deleted = true
  · rw [if_pos hd] at hform
    have hcf : ColonFree r.rrnHash := by
      rw [hcanon]
      exact hH r.rrn
    have := tombstone_inj (hH s.rrn) hcf (hform.symm.trans hcontra)
    exact hsid this.2
  · rw [if_neg hd] at hform
    exact tombstone_ne_colonFree (hH s.rrn) (hcontra.symm.trans hform)

/-- C6: soft-delete of a customer fails with `ActiveDependencyExists`
whenever the customer has at least one active insurance (the raising
statement modifies no row: an error leaves the store unchanged); with no
active insurance, the same single UPDATE statement sets the deleted
timestamp and mutates the row's hash to the tombstone value, after
which no row holds the canonical hash — it is immediately reusable. -/
theorem soft_delete_guard_and_tombstone (H : String → String) (db : DB)
    (cid : ℕ) (hH : HashFn H) (hInv : Inv H db) :
    ((∃ i ∈ db.insurances, i.customerId = cid ∧ i.deleted = false) →
      soft_delete_customer db cid = .error .activeDependencyExists) ∧
    (∀ r, (∀ i ∈ db.insurances, i.customerId = cid → i.deleted = true) →
      db.customers.find? (fun s => s.id = cid && !s.deleted) = some r →
      soft_delete_customer db cid = .ok ({ db with
        customers := db.customers.map (fun s =>
          if s.id = cid && !s.deleted then
            { s with deleted := true, rrnHash := tombstone r.rrnHash r.id }
          else s) }, 1) ∧
      ∀ s ∈ db.customers.map (fun s =>
          if s.id = cid && !s.deleted then
            { s with deleted := true, rrnHash := tombstone r.rrnHash r.id }
          else s), s.rrnHash ≠ H r.rrn) := by
  refine ⟨soft_delete_dependency, ?_⟩
  intro r hno hf
  have hrp := List.find?_some hf
  simp only [Bool.and_eq_true, decide_eq_true_eq, Bool.not_eq_true'] at hrp
  have hrmem := List.mem_of_find?_eq_some hf
  have hcanon : r.rrnHash = H r.rrn := by
    have := hInv.2.2 r hrmem
    rwa [hrp.2, if_neg (by simp)] at this
  have hfresh : ∀ s ∈ db.customers, s.id ≠ cid →
      s.rrnHash ≠ tombstone r.rrnHash r.id := by
    intro s hs hsid
    exact inv_tombstone_fresh hH hInv hcanon s hs (hrp.1 ▸ hsid)
  refine ⟨soft_delete_success hno hf hfresh, ?_⟩
  intro s hs
  rcases List.mem_map.1 hs with ⟨x, hx, hfx⟩
  by_cases hc : (x.id = cid && !x.deleted) = true
  · rw [if_pos hc] at hfx
    rw [← hfx]
    exact tombstone_ne_colonFree (hH r.rrn)
  · rw [if_neg hc] at hfx
    rw [← hfx]
    intro hcontra
    have : x = r := eq_of_same_hash hInv.1 hx hrmem (hcontra.trans hcanon.symm)
    rw [this] at hc
    exact hc (by simp [hrp.1, hrp.2])

/-- Valid resident-id used in concrete witnesses
(weights 2..5 checksum: check digit 8). -/
def rrnA : String := "1111111111118"

def rowActiveA : CustomerRow :=
  ⟨1, "고객갑", rrnA, hashConcrete rrnA, "010-1111-1111", "서울특별시",
    "회사원", "", "", "", "", "", false⟩

def dbWithInsurance : DB := ⟨[rowActiveA], [⟨1, 1, false⟩], 2, 2⟩

def dbNoInsurance : DB := ⟨[rowActiveA], [], 2, 2⟩

/-- Witness for C6: an active insurance blocks the soft delete; with no
insurance the row is tombstoned in one statement. -/
theorem soft_delete_guard_witness :
    soft_delete_customer dbWithInsurance 1 = .error .activeDependencyExists ∧
    soft_delete_customer dbNoInsurance 1 = .ok ({ dbNoInsurance with
      customers := [{ rowActiveA with
        deleted := true,
        rrnHash := tombstone rowActiveA.rrnHash 1 }] }, 1) := by
  constructor
  · exact (soft_delete_guard_and_tombstone hashConcrete dbWithInsurance 1
      hashConcrete_hashFn (by decide)).1 ⟨⟨1, 1, false⟩, by decide, rfl, rfl⟩
  · have h := ((soft_delete_guard_and_tombstone hashConcrete dbNoInsurance 1
      hashConcrete_hashFn (by decide)).2 rowActiveA (by decide) (by decide)).1
    rw [h]
    rfl

/-- C5: `restore_customer` of a missing or already-active id affects
zero rows, which the service reports as a not-found error; for a
soft-deleted row it recomputes the canonical hash of the stored
(decrypted) resident-id, fails with `RestoreConflict` when some other
active row holds that hash (an error leaves the row soft-deleted), and
otherwise clears the deleted flag and resets the hash to the canonical
value in one UPDATE. -/
theorem restore_protocol (H : String → String) (db : DB) (cid : ℕ)
    (hH : HashFn H) (hInv : Inv H db) :
    (db.customers.find? (fun s => s.id = cid) = none →
      restore_customer H db cid = .ok (db, 0) ∧
      service_restore_customer H db cid =
        .error (.notFound "복구할 고객 정보를 찾을 수 없습니다.")) ∧
    (∀ r, db.customers.find? (fun s => s.id = cid) = some r →
      (r.deleted = false →
        restore_customer H db cid = .ok (db, 0) ∧
        service_restore_customer H db cid =
          .error (.notFound "복구할 고객 정보를 찾을 수 없습니다.")) ∧
      (r.deleted = true →
        ((∃ s ∈ db.customers, s.deleted = false ∧ s.rrnHash = H r.rrn ∧
            s.id ≠ cid) →
          restore_customer H db cid = .error .restoreConflict) ∧
        ((∀ s ∈ db.customers, s.deleted = false → s.id ≠ cid →
            s.rrnHash ≠ H r.rrn) →
          restore_customer H db cid = .ok ({ db with
            customers := db.customers.map (fun s =>
              if s.id = cid && s.deleted then
                { s with deleted := false, rrnHash := H r.rrn }
              else s) }, 1)))) := by
  constructor
  · intro hf
    have h0 := restore_customer_missing (H := H) hf
    refine ⟨h0, ?_⟩
    unfold service_restore_customer
    rw [h0]
    rfl
  · intro r hf
    constructor
    · intro hact
      have h0 := restore_customer_active (H := H) hf hact
      refine ⟨h0, ?_⟩
      unfold service_restore_customer
      rw [h0]
      rfl
    · intro hdel
      constructor
      · intro hconf
        obtain ⟨s, hs, h1, h2, h3⟩ := hconf
        exact restore_customer_conflict hf hdel ⟨s, hs, h2, h1, h3⟩
      · intro hnoconf
        refine restore_customer_success hf hdel ?_
        intro s hs hsid
        by_cases hd : s.deleted = true
        · have hform := hInv.2.2 s hs
          rw [if_pos hd] at hform
          rw [hform]
          exact tombstone_ne_colonFree (hH r.rrn)
        · rw [Bool.not_eq_true] at hd
          exact hnoconf s hs hd hsid

def rowDeletedA : CustomerRow :=
  ⟨1, "고객갑", rrnA, tombstone (hashConcrete rrnA) 1, "010-1111-1111",
    "서울특별시", "회사원", "", "", "", "", "", true⟩

def rowActiveB : CustomerRow :=
  ⟨2, "고객을", rrnA, hashConcrete rrnA, "010-2222-2222", "부산광역시",
    "자영업", "", "", "", "", "", false⟩

/-- A reachable-shaped state: customer 1 soft-deleted (tombstoned hash),
customer 2 active and holding the canonical hash of the same
resident-id. -/
def dbConflict : DB := ⟨[rowDeletedA, rowActiveB], [], 3, 1⟩

def dbDeletedOnly : DB := ⟨[rowDeletedA], [], 3, 1⟩

/-- Witness for C5: restore under an active holder fails with
`RestoreConflict`; restore with the hash free succeeds and resets the
canonical hash; a missing id gives the service's not-found error. -/
theorem restore_protocol_witness :
    restore_customer hashConcrete dbConflict 1 = .error .restoreConflict ∧
    restore_customer hashConcrete dbDeletedOnly 1 = .ok ({ dbDeletedOnly with
      customers := [{ rowDeletedA with
        deleted := false,
        rrnHash := hashConcrete rrnA }] }, 1) ∧
    service_restore_customer hashConcrete dbConflict 99 =
      .error (.notFound "복구할 고객 정보를 찾을 수 없습니다.") := by
  refine ⟨?_, ?_, ?_⟩
  · exact (((restore_protocol hashConcrete dbConflict 1 hashConcrete_hashFn
      (by decide)).2 rowDeletedA (by decide)).2 rfl).1
      ⟨rowActiveB, by decide, rfl, by decide, by decide⟩
  · have h := (((restore_protocol hashConcrete dbDeletedOnly 1
      hashConcrete_hashFn (by decide)).2 rowDeletedA (by decide)).2 rfl).2
      (by decide)
    rw [h]
    rfl
  · exact ((restore_protocol hashConcrete dbConflict 99 hashConcrete_hashFn
      (by decide)).1 (by decide)).2

/-- An active holder of the canonical hash makes `create_customer` fail
with `DuplicateResidentId` (no invariant needed). -/
theorem create_customer_active_dup {H : String → String} {db : DB}
    {q : CustomerCreate}
    (hex : ∃ r ∈ db.customers, r.deleted = false ∧ r.rrnHash = H q.rrn) :
    create_customer H db q = .error .duplicateResidentId := by
  obtain ⟨r, hr, hact, hh⟩ := hex
  unfold create_customer
  rw [insertCustomer_collision hr hh]
  have hfind : db.customers.find?
      (fun s => s.rrnHash = H q.rrn && !s.deleted) ≠ none := by
    intro hnone
    rw [List.find?_eq_none] at hnone
    exact hnone r hr (by simp [hh, hact])
  obtain ⟨s, hs⟩ := Option.ne_none_iff_exists'.mp hfind
  rw [hs]

/-- C1: in every reachable database state at most one active customer
holds any given resident-id hash; while customer A is active with hash
X, creating customer B with X fails with `DuplicateResidentId`; and
after soft-deleting A (allowed when A has no active insurance),
creating B with X succeeds with the next id. -/
theorem reachable_active_unique (H : String → String) (db : DB)
    (hH : HashFn H) (hdb : Reachable H db) :
    (∀ r1 ∈ db.customers, ∀ r2 ∈ db.customers, r1.deleted = false →
      r2.deleted = false → r1.rrnHash = r2.rrnHash → r1 = r2) ∧
    (∀ q : CustomerCreate,
      (∃ a ∈ db.customers, a.deleted = false ∧ a.rrnHash = H q.rrn) →
      create_customer H db q = .error .duplicateResidentId) ∧
    (∀ a ∈ db.customers, a.deleted = false →
      (∀ i ∈ db.insurances, i.customerId = a.id → i.deleted = true) →
      ∀ q : CustomerCreate, H q.rrn = a.rrnHash →
      ∃ db1, soft_delete_customer db a.id = .ok (db1, 1) ∧
        ∃ db2, create_customer H db1 q = .ok (db2, db1.nextCustomerId)) := by
  have hInv := reachable_inv hH hdb
  refine ⟨?_, ?_, ?_⟩
  · intro r1 h1 r2 h2 _ _ hh
    exact eq_of_same_hash hInv.1 h1 h2 hh
  · intro q hex
    exact create_customer_active_dup hex
  · intro a ha hact hno q hq
    have hcanon : a.rrnHash = H a.rrn := by
      have := hInv.2.2 a ha
      rwa [hact, if_neg (by simp)] at this
    have hf : db.customers.find? (fun s => s.id = a.id && !s.deleted) ≠ none := by
      intro hnone
      rw [List.find?_eq_none] at hnone
      exact hnone a ha (by simp [hact])
    obtain ⟨r', hr'⟩ := Option.ne_none_iff_exists'.mp hf
    have hr'p := List.find?_some hr'
    simp only [Bool.and_eq_true, decide_eq_true_eq, Bool.not_eq_true'] at hr'p
    have hr'mem := List.mem_of_find?_eq_some hr'
    have hra : r' = a := eq_of_same_id hInv.1 hr'mem ha hr'p.1
    subst hra
    have hfresh : ∀ s ∈ db.customers, s.id ≠ r'.id →
        s.rrnHash ≠ tombstone r'.rrnHash r'.id :=
      inv_tombstone_fresh hH hInv hcanon
    have hdel := soft_delete_success hno hr' hfresh
    refine ⟨_, hdel, ?_⟩
    have hInv1 := soft_delete_inv hInv hdel
    rcases create_customer_inv_cases q hH hInv1 with ⟨_, heq⟩ | ⟨hex, _⟩
    · exact ⟨_, heq⟩
    · exfalso
      obtain ⟨s, hs, hsact, hsh⟩ := hex
      rcases List.mem_map.1 hs with ⟨x, hx, hfx⟩
      by_cases hc : (x.id = r'.id && !x.deleted) = true
      · rw [if_pos hc] at hfx
        rw [← hfx] at hsh
        exact tombstone_ne_colonFree (hH q.rrn) hsh
      · rw [if_neg hc] at hfx
        rw [← hfx] at hsh hsact
        have : x = r' := eq_of_same_hash hInv.1 hx hr'mem (hsh.trans hq)
        rw [this] at hc
        exact hc (by simp [hr'p.2])

def payloadA : CustomerCreate :=
  ⟨"고객갑", rrnA, "010-1111-1111", "서울특별시", "회사원", "", "", "", "", ""⟩

def payloadB : CustomerCreate :=
  ⟨"고객을", rrnA, "010-2222-2222", "부산광역시", "자영업", "", "", "", "", ""⟩

/-- The state after one repository create of customer A. -/
def dbAfterA : DB := runOps hashConcrete [Op.create payloadA]

def rowA : CustomerRow := rowOfPayload hashConcrete 1 payloadA

/-- Witness for C1: with A active, creating B with the same resident-id
fails; after soft-deleting A it succeeds. -/
theorem reachable_active_unique_witness :
    create_customer hashConcrete dbAfterA payloadB =
      .error .duplicateResidentId ∧
    (∃ db1, soft_delete_customer dbAfterA rowA.id = .ok (db1, 1) ∧
      ∃ db2, create_customer hashConcrete db1 payloadB =
        .ok (db2, db1.nextCustomerId)) := by
  have h := reachable_active_unique hashConcrete dbAfterA hashConcrete_hashFn
    ⟨[Op.create payloadA], rfl⟩
  exact ⟨h.2.1 payloadB (by decide),
    h.2.2 rowA (by decide) (by decide) (by decide) payloadB (by decide)⟩

theorem except_bind_ok {α β : Type} {x : Except RepoError α}
    {f : α → Except RepoError β} {b : β}
    (h : (x >>= f) = .ok b) : ∃ a, x = .ok a ∧ f a = .ok b := by
  cases x with
  | error e =>
    exact absurd h (by simp [Bind.bind, Except.bind])
  | ok a =>
    refine ⟨a, rfl, ?_⟩
    simpa [Bind.bind, Except.bind] using h

theorem validate_rrn_ok {s t : String} (h : validate_rrn s = .ok t) :
    t = stripDashes s := by
  unfold validate_rrn at h
  dsimp only [] at h
  split at h
  · cases h
  · split at h
    · cases h
    · injection h with h1
      exact h1.symm

/-- C2: validated customer create hashes the canonicalized
(dash-stripped) resident-id and inserts with it; on a unique-hash
violation, an active holder means `DuplicateResidentId`, and a
soft-deleted holder has its hash mutated to the tombstone value (its
own hash, the deleted marker and its own row id) after which the insert
is retried exactly once, returning the new row's id. -/
theorem create_hash_reconciliation (H : String → String) (db : DB)
    (p q : CustomerCreate) (hH : HashFn H) (hwf : HashWF H db) :
    (validateCustomer p = .ok q → q.rrn = stripDashes p.rrn ∧
      service_create_customer H db p = create_customer H db q) ∧
    ((∀ r ∈ db.customers, r.rrnHash ≠ H q.rrn) →
      create_customer H db q = .ok ({ db with
        customers := db.customers ++ [rowOfPayload H db.nextCustomerId q],
        nextCustomerId := db.nextCustomerId + 1 }, db.nextCustomerId)) ∧
    ((∃ r ∈ db.customers, r.deleted = false ∧ r.rrnHash = H q.rrn) →
      create_customer H db q = .error .duplicateResidentId) ∧
    (∀ d ∈ db.customers, d.deleted = true → d.rrnHash = H q.rrn →
      (∀ r ∈ db.customers, r.deleted = false → r.rrnHash ≠ H q.rrn) →
      create_customer H db q = .ok ({ db with
        customers := (db.customers.map (fun r =>
          if r.id = d.id then { r with rrnHash := tombstone d.rrnHash d.id }
          else r)) ++ [rowOfPayload H db.nextCustomerId q],
        nextCustomerId := db.nextCustomerId + 1 }, db.nextCustomerId)) := by
  refine ⟨?_, ?_, create_customer_active_dup, ?_⟩
  · intro hv
    constructor
    · unfold validateCustomer at hv
      obtain ⟨name, hname, hv⟩ := except_bind_ok hv
      obtain ⟨rrn, hrrn, hv⟩ := except_bind_ok hv
      obtain ⟨phone, hphone, hv⟩ := except_bind_ok hv
      obtain ⟨address, haddress, hv⟩ := except_bind_ok hv
      obtain ⟨pc, hpc, hv⟩ := except_bind_ok hv
      obtain ⟨pa, hpa, hv⟩ := except_bind_ok hv
      obtain ⟨po, hpo, hv⟩ := except_bind_ok hv
      injection hv with hv
      rw [← hv]
      exact validate_rrn_ok hrrn
    · unfold service_create_customer
      rw [hv]
      rfl
  · intro hfree
    unfold create_customer
    rw [insertCustomer_fresh hfree]
  · intro d hd hdel hdh hnoact
    exact create_customer_reconcile hH hwf hd hdel hdh hnoact

/-- A legacy-shaped database: a soft-deleted row still holding its
canonical hash, as `create_customer`'s reconciliation branch expects. -/
def rowLegacyDeleted : CustomerRow :=
  ⟨1, "고객갑", rrnA, hashConcrete rrnA, "010-1111-1111", "서울특별시",
    "회사원", "", "", "", "", "", true⟩

def dbLegacy : DB := ⟨[rowLegacyDeleted], [], 2, 1⟩

def payloadDashed : CustomerCreate :=
  ⟨"고객을", "111111-1111118", "010-2222-2222", "부산광역시", "자영업",
    "", "", "", "", ""⟩

/-- Witness for C2: validation canonicalizes the dashed resident-id,
and a create that collides with a soft-deleted holder tombstones that
row and retries, returning the new id. -/
theorem create_hash_reconciliation_witness :
    payloadB.rrn = stripDashes payloadDashed.rrn ∧
    create_customer hashConcrete dbLegacy payloadB = .ok ({ dbLegacy with
      customers := [{ rowLegacyDeleted with
        rrnHash := tombstone (hashConcrete rrnA) 1 }] ++
        [rowOfPayload hashConcrete 2 payloadB],
      nextCustomerId := 3 }, 2) := by
  have h := create_hash_reconciliation hashConcrete dbLegacy payloadDashed
    payloadB hashConcrete_hashFn (by decide)
  constructor
  · exact (h.1 (by decide)).1
  · have h4 := h.2.2.2 rowLegacyDeleted (by decide) rfl (by decide) (by decide)
    rw [h4]
    rfl

/-- The CSV-import claim as stated, over every customer CSV with a
valid header: each data row is processed independently, a failing row
is counted without aborting the import, at most 10 row-numbered error
messages are retained, and the result reports the created count, the
failed count and the messages. -/
def CsvImportClaimStatement : Prop :=
  ∀ (H : String → String) (db : DB) (fieldnames : Option (List String))
    (rows : List CsvRow), HashFn H → Inv H db →
    validate_headers fieldnames CUSTOMER_CSV_HEADERS = .ok () →
    ∃ db1 res, import_customers H db fieldnames rows = .ok (db1, res) ∧
      res.created_count + res.failed_count = rows.length ∧
      res.error_messages.length = min res.failed_count 10 ∧
      ∀ m ∈ res.error_messages, ∃ i e, i < rows.length ∧ catchable e = true ∧
        m = natToDec (i + 2) ++ "행: " ++ errMsg e

/-- A data row three cells shorter than the header: `csv.DictReader`
pads the missing trailing fields with `None`. -/
def raggedRow : CsvRow :=
  [("이름", some "고객정"), ("주민번호", some "222222-2222225"),
   ("연락처", some "010-4444-4444"), ("주소", some "서울특별시"),
   ("직업", some "회사원"), ("카드번호", some ""), ("결제계좌", some ""),
   ("보험금수령계좌", none), ("병력", none), ("비고", none)]

/-- C9 (counterexample): on a valid-header CSV whose single data row is
shorter than the header, the `None`-padded cells make validation raise
`AttributeError` (`None.strip()`), which the row loop's
`except (ValueError, KeyError, TypeError)` does not catch — the import
aborts instead of counting the row as a failure. -/
theorem csv_import_claim_counterexample : ¬ CsvImportClaimStatement := by
  intro hcl
  obtain ⟨db1, res, h1, _⟩ := hcl hashConcrete emptyDB
    (some CUSTOMER_CSV_HEADERS) [raggedRow] hashConcrete_hashFn
    (by decide) (by decide)
  rw [show import_customers hashConcrete emptyDB (some CUSTOMER_CSV_HEADERS)
    [raggedRow] = .error .attributeError from by decide] at h1
  cases h1

/-- C9 (amended): over any customer CSV with a valid header whose data
rows are not shorter than the header (no `None`-padded cells), rows are
processed independently: a failing row is counted without aborting the
import, at most 10 error messages are retained, each message names the
row's 1-based CSV row number (the header being row 1, so data row `i`
is CSV row `i + 2` for 0-based `i`) followed by the caught error's
text, and the result reports the created count, the failed count and
the messages.  A short data row instead aborts the import with an
uncaught `AttributeError`. -/
theorem csv_import_partial_failure (H : String → String) (db : DB)
    (fieldnames : Option (List String)) (rows : List CsvRow)
    (hH : HashFn H) (hInv : Inv H db)
    (hrows : ∀ row ∈ rows, ∀ kv ∈ row, kv.2 ≠ none)
    (hdr : validate_headers fieldnames CUSTOMER_CSV_HEADERS = .ok ()) :
    ∃ db1 res, import_customers H db fieldnames rows = .ok (db1, res) ∧
      res.created_count + res.failed_count = rows.length ∧
      res.error_messages.length = min res.failed_count 10 ∧
      ∀ m ∈ res.error_messages, ∃ i e, i < rows.length ∧ catchable e = true ∧
        m = natToDec (i + 2) ++ "행: " ++ errMsg e := by
  obtain ⟨db1, c, k, msgs, heq, hck, hmlen, hmem, _⟩ :=
    importLoop_spec hH rows db 2 0 0 [] hInv (by simp) hrows
  refine ⟨db1, ⟨0 + c, 0 + k, msgs⟩, ?_, by simp only []; omega, ?_, ?_⟩
  · unfold import_customers
    rw [hdr]
    simpa [Bind.bind, Except.bind] using heq
  · simpa using hmlen
  · intro m hm
    rcases hmem m hm with hl | ⟨j, e, hj1, hj2, hc, hmsg⟩
    · cases hl
    · refine ⟨j - 2, e, by omega, hc, ?_⟩
      rw [show j - 2 + 2 = j from by omega]
      exact hmsg

def demoRow (name rrn phone : String) : CsvRow :=
  [("이름", some name), ("주민번호", some rrn), ("연락처", some phone),
   ("주소", some "서울특별시"), ("직업", some "회사원"),
   ("카드번호", some ""), ("결제계좌", some ""),
   ("보험금수령계좌", some ""), ("병력", some ""), ("비고", some "")]

/-- Three data rows; only the second (CSV row 3) has an invalid
resident-id (bad checksum). -/
def demoRows : List CsvRow :=
  [demoRow "고객갑" "111111-1111118" "010-1111-1111",
   demoRow "고객을" "971013-9019903" "010-2222-2222",
   demoRow "고객병" "222222-2222225" "010-3333-3333"]

/-- Witness for C9: the 3-row import yields created=2, failed=1 and a
single message for CSV row 3. -/
theorem csv_import_partial_failure_witness :
    ∃ db1 res,
      import_customers hashConcrete emptyDB (some CUSTOMER_CSV_HEADERS)
        demoRows = .ok (db1, res) ∧
      res.created_count + res.failed_count = demoRows.length ∧
      res.error_messages.length = min res.failed_count 10 ∧
      res = ⟨2, 1, ["3행: 주민번호 체크섬이 유효하지 않습니다."]⟩ := by
  obtain ⟨db1, res, h1, h2, h3, _⟩ := csv_import_partial_failure hashConcrete
    emptyDB (some CUSTOMER_CSV_HEADERS) demoRows hashConcrete_hashFn
    (by decide) (by decide) (by decide)
  refine ⟨db1, res, h1, h2, h3, ?_⟩
  have hmap : (import_customers hashConcrete emptyDB
      (some CUSTOMER_CSV_HEADERS) demoRows).map Prod.snd =
      .ok ⟨2, 1, ["3행: 주민번호 체크섬이 유효하지 않습니다."]⟩ := by decide
  rw [h1] at hmap
  simpa [Except.map] using hmap

/-- Membership in `_diff`'s output: exactly the keys whose dict values
differ, paired with the before and after values. -/
theorem mem_diffDict {before after : List (String × String)}
    {k old new : String} :
    (k, old, new) ∈ diffDict before after ↔
      (k ∈ sortedKeyUnion before after ∧ old = lookupD before k ∧
        new = lookupD after k ∧ old ≠ new) := by
  unfold diffDict
  rw [List.mem_filterMap]
  constructor
  · rintro ⟨a, ha, hsome⟩
    dsimp only [] at hsome
    by_cases hceq : lookupD before a = lookupD after a
    · rw [if_pos hceq] at hsome
      cases hsome
    · rw [if_neg hceq] at hsome
      simp only [Option.some.injEq, Prod.mk.injEq] at hsome
      obtain ⟨h1, h2, h3⟩ := hsome
      subst h1
      exact ⟨ha, h2.symm, h3.symm, by rw [h2, h3] at hceq; exact hceq⟩
  · rintro ⟨hk, hold, hnew, hne⟩
    refine ⟨k, hk, ?_⟩
    dsimp only []
    rw [if_neg (by rw [← hold, ← hnew]; exact hne), ← hold, ← hnew]

/-- `find?` commutes with a map that does not change the predicate. -/
theorem find?_map_of_pred {l : List CustomerRow} {p : CustomerRow → Bool}
    {F : CustomerRow → CustomerRow} (hpF : ∀ x, p (F x) = p x) :
    (l.map F).find? p = (l.find? p).map F := by
  rw [List.find?_map]
  have : p ∘ F = p := funext hpF
  rw [this]

/-- C8: the audit detail of a successful customer update is the
field-level diff of the masked before and after snapshots: it contains
an entry for a key exactly when the masked value changed, carrying the
before and after masked values, and two resident-ids that mask
identically produce no `rrn` entry. -/
theorem update_audit_diff (H : String → String) (db : DB) (cid : ℕ)
    (p : CustomerCreate) (db' : DB) (d : List (String × String × String))
    (h : service_update_customer H db cid p = .ok (db', d)) :
    ∃ rb ra sb sa,
      get_customer db cid = some rb ∧ get_customer db' cid = some ra ∧
      snapshotPairs rb = some sb ∧ snapshotPairs ra = some sa ∧
      d = diffDict sb sa ∧
      (∀ k old new, (k, old, new) ∈ d ↔
        (k ∈ sortedKeyUnion sb sa ∧ old = lookupD sb k ∧
          new = lookupD sa k ∧ old ≠ new)) ∧
      (mask_rrn rb.rrn = mask_rrn ra.rrn →
        ∀ old new, ("rrn", old, new) ∉ d) := by
  unfold service_update_customer at h
  obtain ⟨sb, hsb, h⟩ := except_bind_ok h
  obtain ⟨q, hq, h⟩ := except_bind_ok h
  obtain ⟨x, hupd, h⟩ := except_bind_ok h
  obtain ⟨db1, n⟩ := x
  dsimp only [] at h
  by_cases hn : n = 0
  · rw [if_pos hn] at h
    cases h
  rw [if_neg hn] at h
  obtain ⟨sa, hsa, h⟩ := except_bind_ok h
  injection h with h1
  injection h1 with hdb1 hd
  subst hdb1
  subst hd
  unfold update_customer at hupd
  split at hupd
  · injection hupd with h1
    injection h1 with ha hb
    exact absurd hb.symm hn
  rename_i rb hfb
  split at hupd
  · cases hupd
  rename_i hanyu
  injection hupd with h1
  injection h1 with hdb1 hn1
  subst hdb1
  have hga : get_customer { db with customers := db.customers.map (fun s =>
      if s.id = cid && !s.deleted then
        { s with
          name := q.name,
          rrn := q.rrn,
          rrnHash := H q.rrn,
          phone := q.phone,
          address := q.address,
          job := q.job,
          payment_card := q.payment_card,
          payment_account := q.payment_account,
          payout_account := q.payout_account,
          medical_history := q.medical_history,
          note := q.note }
      else s) } cid = some ((fun s =>
      if s.id = cid && !s.deleted then
        { s with
          name := q.name,
          rrn := q.rrn,
          rrnHash := H q.rrn,
          phone := q.phone,
          address := q.address,
          job := q.job,
          payment_card := q.payment_card,
          payment_account := q.payment_account,
          payout_account := q.payout_account,
          medical_history := q.medical_history,
          note := q.note }
      else s) rb) := by
    unfold get_customer
    rw [find?_map_of_pred, hfb]
    · rfl
    · intro x
      by_cases hc : (x.id = cid && !x.deleted) = true
      · rw [if_pos hc]
      · rw [if_neg hc]
  set F := (fun s : CustomerRow =>
    if s.id = cid && !s.deleted then
      { s with
        name := q.name,
        rrn := q.rrn,
        rrnHash := H q.rrn,
        phone := q.phone,
        address := q.address,
        job := q.job,
        payment_card := q.payment_card,
        payment_account := q.payment_account,
        payout_account := q.payout_account,
        medical_history := q.medical_history,
        note := q.note }
    else s) with hF
  have hsbp : snapshotPairs rb = some sb := by
    unfold snapshotE at hsb
    unfold get_customer at hsb
    rw [hfb] at hsb
    dsimp only [] at hsb
    split at hsb
    · cases hsb
    · rename_i l hl
      injection hsb with h1
      exact h1 ▸ hl
  have hsap : snapshotPairs (F rb) = some sa := by
    unfold snapshotE at hsa
    rw [hga] at hsa
    dsimp only [] at hsa
    split at hsa
    · cases hsa
    · rename_i l hl
      injection hsa with h1
      exact h1 ▸ hl
  refine ⟨rb, F rb, sb, sa, hfb, hga, hsbp, hsap, rfl,
    fun k old new => mem_diffDict, ?_⟩
  intro hmask old new hin
  obtain ⟨_, hold, hnew, hne⟩ := mem_diffDict.mp hin
  unfold snapshotPairs at hsbp hsap
  rcases hmb : mask_rrn rb.rrn with _ | mb
  · rw [hmb] at hsbp
    cases hsbp
  rcases hma : mask_rrn (F rb).rrn with _ | ma
  · rw [hma] at hsap
    cases hsap
  rw [hmb] at hsbp
  rw [hma] at hsap
  simp only [Option.map_some', Option.some.injEq] at hsbp hsap
  have hmbma : mb = ma := by
    rw [hmb, hma] at hmask
    injection hmask
  have hvb : lookupD sb "rrn" = mb := by
    rw [← hsbp]
    rfl
  have hva : lookupD sa "rrn" = ma := by
    rw [← hsap]
    rfl
  rw [hold, hnew, hvb, hva, hmbma] at hne
  exact hne rfl

/-- Update payload: a different resident-id with the identical mask
(`111111-1******`), and a changed phone number. -/
def payloadSameMask : CustomerCreate :=
  ⟨"고객갑", "111111-1111220", "010-9999-9999", "서울특별시", "회사원",
    "", "", "", "", ""⟩

/-- Witness for C8: updating with a resident-id that masks identically
and a new phone number audits exactly one entry — the phone — and no
`rrn` entry despite the resident-id having changed. -/
theorem update_audit_diff_witness :
    ∃ db' d, service_update_customer hashConcrete dbNoInsurance 1
        payloadSameMask = .ok (db', d) ∧
      d = [("phone", "010-1111-1111", "010-9999-9999")] ∧
      ∀ old new, ("rrn", old, new) ∉ d := by
  have hcomp : (service_update_customer hashConcrete dbNoInsurance 1
      payloadSameMask).map Prod.snd =
      .ok [("phone", "010-1111-1111", "010-9999-9999")] := by decide
  rcases hs : service_update_customer hashConcrete dbNoInsurance 1
    payloadSameMask with e | ⟨db', d⟩
  · rw [hs] at hcomp
    cases hcomp
  obtain ⟨rb, ra, sb, sa, hgb, hga, hpb, hpa, hdiff, hiff, hrrn⟩ :=
    update_audit_diff hashConcrete dbNoInsurance 1 payloadSameMask db' d hs
  rw [hs] at hcomp
  simp only [Except.map, Except.ok.injEq] at hcomp
  refine ⟨db', d, rfl, hcomp, ?_⟩
  intro old new hin
  rw [hcomp] at hin
  simp at hin

end Manim
